import Mathlib

/-!
Verification of the Drawing-Canvas event-sourced drawing application.

The definitions below are a shallow embedding of the TypeScript sources:
* `ArrayShapeStore` (ShapeStore.mts): the ordered entity store with an
  id -> index lookup map,
* the shape event types and `serializeEvent` / `deserializeEvent`
  (ShapeEvents / Utils/EventSerialize),
* the event-log compaction pass (canvas.mts, optimizeLogButton handler),
* the store projections registered on the event bus by `DrawingCanvas`
  and by the event-sourced `SelectionTool`,
* `ClientOnlyEventBus.addEventListener` and the unsubscribe closure it
  returns (EventBus.mts).

JavaScript `Map` objects are modelled as association lists with unique
keys (`mapGet` / `mapSet`); in-place mutation of a `{ index }` record held
in the map is modelled as a keyed update, which is observationally the
same because JS map keys are unique.  JS numbers appearing as layer deltas
are modelled as `JsNumber` (an integer, one of the two infinities, or
NaN); integer-valued fields such as timestamps are modelled as `Int`.
-/

namespace Canvas

/-! ## JS helpers: arrays indexed by possibly-negative numbers -/

/-- JS `array[i]` read: a negative or out-of-range index yields `undefined`. -/
def jsGetI {α : Type} (xs : List α) (i : Int) : Option α :=
  if 0 ≤ i then xs.get? i.toNat else none

/-- JS `array[i] = x` write.  A negative index creates a non-index property and
leaves the array elements unchanged, as does (in the reachable cases proved
below it never happens) an index beyond the current length. -/
def jsSetI {α : Type} (xs : List α) (i : Int) (x : α) : List α :=
  if 0 ≤ i then xs.set i.toNat x else xs

/-- First index of an element satisfying `p`, as produced by JS
`Array.prototype.findIndex`-style scans (here used for specification). -/
def jsFindIndex {α : Type} (p : α → Bool) : List α → Option Nat
  | [] => none
  | a :: as => if p a then some 0 else (jsFindIndex p as).map (· + 1)

/-! ## The id -> index lookup (`Map<ID<T>, { index: number }>`) -/

/-- The `shapeLookup` map: key/value pairs in insertion order; keys unique. -/
abbrev Lookup := List (String × Nat)

/-- `map.get(k)` — first (and, with unique keys, only) binding of `k`. -/
def mapGet (m : Lookup) (k : String) : Option Nat :=
  (m.find? (fun p => p.1 == k)).map (·.2)

/-- `map.set(k, v)` (and, equivalently, in-place mutation of the `{ index }`
record stored under `k`): update the binding in place if present, else append. -/
def mapSet (m : Lookup) (k : String) (v : Nat) : Lookup :=
  if m.any (fun p => p.1 == k) then
    m.map (fun p => if p.1 == k then (k, v) else p)
  else
    m ++ [(k, v)]

/-- The pairs `[id, { index }]` built by
`this.shapes.map(({id}, index) => [id, { index }])`. -/
def enumIds {α : Type} (id : α → String) : Nat → List α → List (String × Nat)
  | _, [] => []
  | i, s :: rest => (id s, i) :: enumIds id (i + 1) rest

/-- `new Map(pairs)`: inserting every pair in order. -/
def buildLookup {α : Type} (id : α → String) (shapes : List α) : Lookup :=
  (enumIds id 0 shapes).foldl (fun m p => mapSet m p.1 p.2) []

/-! ## ArrayShapeStore (ShapeStore.mts) -/

/-- The structural `T extends { id: any }` bound of `ArrayShapeStore<T>`
(with ids concretely strings, `ShapeId = string`). -/
class HasId (α : Type) where
  id : α → String

export HasId (id)

/-- `ArrayShapeStore<T>`: the entity array plus the id -> index lookup. -/
structure ArrayShapeStore (α : Type) where
  shapes : List α
  shapeLookup : Lookup
deriving DecidableEq

namespace ArrayShapeStore

variable {α : Type} [HasId α]

/-- The store a fresh `new ArrayShapeStore()` holds. -/
def empty : ArrayShapeStore α := ⟨[], []⟩

/-- `addShape(shape)`: replace in place when the id is already present,
otherwise append and record the new index (`this.shapes.push(shape) - 1`). -/
def addShape (shape : α) (st : ArrayShapeStore α) : ArrayShapeStore α :=
  match mapGet st.shapeLookup (id shape) with
  | some cachedIndex => { st with shapes := st.shapes.set cachedIndex shape }
  | none =>
      { shapes := st.shapes ++ [shape],
        shapeLookup := mapSet st.shapeLookup (id shape) st.shapes.length }

/-- `removeShape(id)`: filter the array and rebuild the lookup from scratch. -/
def removeShape (shapeId : String) (st : ArrayShapeStore α) : ArrayShapeStore α :=
  let shapes := st.shapes.filter (fun s => id s != shapeId)
  { shapes := shapes, shapeLookup := buildLookup id shapes }

/-- `getShapes()` (`Array.from(this.shapes.values())`: a fresh array with the
same elements). -/
def getShapes (st : ArrayShapeStore α) : List α := st.shapes

/-- `getShape(shapeId)`: lookup miss yields `undefined`. -/
def getShape (shapeId : String) (st : ArrayShapeStore α) : Option α :=
  match mapGet st.shapeLookup shapeId with
  | none => none
  | some i => st.shapes.get? i

/-- Throwing operations return `Except (message × store-at-throw) store`;
every `throw new Error(...)` in the source happens before the operation
mutates anything reachable in this model, except where noted. -/
abbrev StoreResult (α : Type) := Except (String × ArrayShapeStore α) (ArrayShapeStore α)

/-- `sendShapeToFront(shapeId)`: `removeShape` then `addShape` of the cached
shape; throws when the id is not in the lookup.  (The inner `none` arm models
the `TypeError` JS would raise on `undefined.id` when a stale lookup index
points outside the array; `removeShape` has already run at that point.) -/
def sendShapeToFront (shapeId : String) (st : ArrayShapeStore α) : StoreResult α :=
  match mapGet st.shapeLookup shapeId with
  | none => .error ("Shape not found in lookup", st)
  | some i =>
    match st.shapes.get? i with
    | none => .error ("TypeError", removeShape shapeId st)
    | some shape => .ok (addShape shape (removeShape shapeId st))

/-- Bump every cached index by one
(`this.shapeLookup.forEach((lookup) => lookup.index += 1)`). -/
def bumpIndices (m : Lookup) : Lookup := m.map (fun p => (p.1, p.2 + 1))

/-- `sendShapeToBack(shapeId)`: `removeShape`, `unshift`, bump every cached
index, then `set(shape.id, { index: 0 })`. -/
def sendShapeToBack (shapeId : String) (st : ArrayShapeStore α) : StoreResult α :=
  match mapGet st.shapeLookup shapeId with
  | none => .error ("Shape not found in lookup", st)
  | some i =>
    match st.shapes.get? i with
    | none => .error ("TypeError", removeShape shapeId st)
    | some shape =>
      let st1 := removeShape shapeId st
      .ok { shapes := shape :: st1.shapes,
            shapeLookup := mapSet (bumpIndices st1.shapeLookup) (id shape) 0 }

/-- The `for (let i = 0; i < Math.abs(layers); i++)` shift loop of
`changeShapeZ`: iteration `i` copies the element at `index + i*direction +
direction` into slot `index + i*direction` and updates that element's cached
index.  `remaining` counts the iterations still to run.  The first `none` arm
models the `TypeError` JS raises on `undefined.id` when the read runs off the
array (never reachable below); the second models the explicit
`throw new Error('Shape not found in lookup')` inside the loop. -/
def zShiftLoop (index : Nat) (direction : Int) :
    Nat → Nat → List α → Lookup → Except (String × List α × Lookup) (List α × Lookup)
  | _, 0, shapes, lookup => .ok (shapes, lookup)
  | i, remaining + 1, shapes, lookup =>
    let offset : Int := (index : Int) + (i : Int) * direction
    match jsGetI shapes (offset + direction) with
    | none => .error ("TypeError", shapes, lookup)
    | some shapeToShift =>
      let shapes1 := jsSetI shapes offset shapeToShift
      match mapGet lookup (id shapeToShift) with
      | none => .error ("Shape not found in lookup", shapes1, lookup)
      | some _ =>
          zShiftLoop index direction (i + 1) remaining shapes1
            (mapSet lookup (id shapeToShift) offset.toNat)

/-- `changeShapeZ(shapeId, layers)`.  A zero delta returns immediately;
out-of-range targets delegate to `sendShapeToBack` / `sendShapeToFront`;
otherwise the shift loop runs and the moved shape lands at `index + layers`.
(The `shapes.get? index = none` arm covers an `undefined` `shapeToMove` under
a stale lookup index, unreachable from invariant-satisfying stores.) -/
def changeShapeZ (shapeId : String) (layers : Int) (st : ArrayShapeStore α) :
    StoreResult α :=
  if layers = 0 then .ok st else
  match mapGet st.shapeLookup shapeId with
  | none => .error ("Shape not found in lookup", st)
  | some index =>
    if (index : Int) + layers < 0 then sendShapeToBack shapeId st
    else if (st.shapes.length : Int) ≤ (index : Int) + layers then
      sendShapeToFront shapeId st
    else
      match st.shapes.get? index with
      | none => .error ("TypeError", st)
      | some shapeToMove =>
        let direction : Int := if 0 < layers then 1 else -1
        match zShiftLoop index direction 0 layers.natAbs st.shapes st.shapeLookup with
        | .error (msg, shapes1, lookup1) =>
            .error (msg, { shapes := shapes1, shapeLookup := lookup1 })
        | .ok (shapes1, lookup1) =>
            .ok { shapes := jsSetI shapes1 ((index : Int) + layers) shapeToMove,
                  shapeLookup := mapSet lookup1 shapeId ((index : Int) + layers).toNat }

end ArrayShapeStore

/-! ## Operation sequences over the store -/

/-- One call against the `ShapeStore<T>` interface. -/
inductive StoreOp (α : Type) where
  | add (shape : α)
  | remove (shapeId : String)
  | get (shapeId : String)
  | toFront (shapeId : String)
  | toBack (shapeId : String)
  | changeZ (shapeId : String) (layers : Int)

/-- Run one operation; a thrown operation leaves the caller holding the store
as it was at the moment of the throw. -/
def runOp {α : Type} [HasId α] (st : ArrayShapeStore α) (op : StoreOp α) :
    ArrayShapeStore α :=
  match op with
  | .add s => st.addShape s
  | .remove i => st.removeShape i
  | .get _ => st
  | .toFront i =>
      match st.sendShapeToFront i with
      | .ok st2 => st2
      | .error (_, st2) => st2
  | .toBack i =>
      match st.sendShapeToBack i with
      | .ok st2 => st2
      | .error (_, st2) => st2
  | .changeZ i l =>
      match st.changeShapeZ i l with
      | .ok st2 => st2
      | .error (_, st2) => st2

/-- Run a sequence of operations from the empty store. -/
def runOps {α : Type} [HasId α] (ops : List (StoreOp α)) : ArrayShapeStore α :=
  ops.foldl runOp ArrayShapeStore.empty

/-! ## Shapes (Shapes.mts / types.mts)

The source shapes are duck-typed JS objects discriminated by a `type`
string (`Line` / `Circle` / `Rectangle` / `Triangle`, each with its own
geometry fields plus the shared `id`, `temporary`, `borderColor`,
`fillColor`).  They are modelled as one flat record of properties, with
the variant-specific geometry fields optional — exactly the property-bag
view JS itself has of them, which is also what `JSON.stringify`,
`JSON.parse` and `Object.assign` operate on. -/

structure Point2D where
  x : Int
  y : Int
deriving DecidableEq

/-- A `Shape` value.  `fromP`/`toP` model the source properties `from`/`to`
(`from` is reserved in Lean). -/
structure Shape where
  id : String
  type : String
  temporary : Bool
  borderColor : String
  fillColor : String
  fromP : Option Point2D
  toP : Option Point2D
  center : Option Point2D
  radius : Option Int
  p1 : Option Point2D
  p2 : Option Point2D
  p3 : Option Point2D
deriving DecidableEq

/-- `PartialShape = Partial<Shape> & { id: string }`: every property other
than `id` may be absent (`none` = the property is not on the object, so
`Object.assign` leaves the target's value in place). -/
structure PartialShape where
  id : String
  type : Option String
  temporary : Option Bool
  borderColor : Option String
  fillColor : Option String
  fromP : Option Point2D
  toP : Option Point2D
  center : Option Point2D
  radius : Option Int
  p1 : Option Point2D
  p2 : Option Point2D
  p3 : Option Point2D
deriving DecidableEq

/-- `Object.assign(shape, event.shape)`: properties present on the partial
overwrite the target's. -/
def objectAssign (target : Shape) (src : PartialShape) : Shape :=
  { id := src.id
    type := src.type.getD target.type
    temporary := src.temporary.getD target.temporary
    borderColor := src.borderColor.getD target.borderColor
    fillColor := src.fillColor.getD target.fillColor
    fromP := src.fromP.orElse (fun _ => target.fromP)
    toP := src.toP.orElse (fun _ => target.toP)
    center := src.center.orElse (fun _ => target.center)
    radius := src.radius.orElse (fun _ => target.radius)
    p1 := src.p1.orElse (fun _ => target.p1)
    p2 := src.p2.orElse (fun _ => target.p2)
    p3 := src.p3.orElse (fun _ => target.p3) }

/-- `type SelectionOptions = { color: string }`. -/
structure SelectionOptions where
  color : String
deriving DecidableEq

/-- A `CanvasShape` (CanvasShapes.mts): a wrapper holding the underlying
shape (returned by `toShape()`, with `id` copied from it) and the mutable
`selectionOptions` slot.  The per-variant drawing/hit-testing methods carry
no further observable state. -/
structure CanvasShape where
  shape : Shape
  selectionOptions : Option SelectionOptions
deriving DecidableEq

instance : HasId CanvasShape := ⟨fun cs => cs.shape.id⟩

/-- `convertShape(shape)`: wrap a shape of one of the four known kinds;
any other `type` falls through the `switch` to `undefined`. -/
def convertShape (s : Shape) : Option CanvasShape :=
  if s.type == "Line" || s.type == "Circle" || s.type == "Rectangle"
      || s.type == "Triangle" then
    some { shape := s, selectionOptions := none }
  else
    none

/-! ## Shape events (ShapeEvents) -/

/-- A JS number in a layer-delta position: an integer, one of the two
infinities (`-INFINITY` = send to back, `INFINITY` = send to front), or NaN. -/
inductive JsNumber where
  | num (n : Int)
  | posInf
  | negInf
  | nan
deriving DecidableEq

/-- `event.z > 0` on a `JsNumber` (any comparison with NaN is false). -/
def JsNumber.gtZero : JsNumber → Bool
  | .num n => 0 < n
  | .posInf => true
  | .negInf => false
  | .nan => false

/-- `Infinity * v` for an integer `v`. -/
def jsInfinityMul (v : Int) : JsNumber :=
  if 0 < v then .posInf else if v < 0 then .negInf else .nan

/-- The fields shared by every event (`BaseEvent`).  The optional
`external?: true` marker is modelled as a `Bool` (`false` = the property is
absent). -/
structure BaseEvent where
  origin : String
  timestamp : Int
  external : Bool
deriving DecidableEq

/-- The `ShapeEvent` union: one constructor per `ShapeEventType`. -/
inductive ShapeEvent where
  | shapeAdded (base : BaseEvent) (shape : Shape)
  | shapeRemoved (base : BaseEvent) (shapeId : String)
  | shapeSelected (base : BaseEvent) (shapeId : String) (options : SelectionOptions)
  | shapeDeselected (base : BaseEvent) (shapeId : String)
  | shapeUpdated (base : BaseEvent) (shape : PartialShape)
  | shapeZChanged (base : BaseEvent) (shapeId : String) (z : JsNumber)
deriving DecidableEq

/-- `event.origin`. -/
def ShapeEvent.origin : ShapeEvent → String
  | .shapeAdded b _ => b.origin
  | .shapeRemoved b _ => b.origin
  | .shapeSelected b _ _ => b.origin
  | .shapeDeselected b _ => b.origin
  | .shapeUpdated b _ => b.origin
  | .shapeZChanged b _ _ => b.origin

/-- `event.external = true` (done by the websocket gateway on every inbound
event before dispatching it). -/
def ShapeEvent.markExternal : ShapeEvent → ShapeEvent
  | .shapeAdded b s => .shapeAdded { b with external := true } s
  | .shapeRemoved b i => .shapeRemoved { b with external := true } i
  | .shapeSelected b i o => .shapeSelected { b with external := true } i o
  | .shapeDeselected b i => .shapeDeselected { b with external := true } i
  | .shapeUpdated b s => .shapeUpdated { b with external := true } s
  | .shapeZChanged b i z => .shapeZChanged { b with external := true } i z

/-! ## Serialization (Utils/EventSerialize) -/

/-- The serialized `z` of a `ShapeZChanged` event:
`{ isInfinity: ..., value: event.z > 0 ? 1 : -1 }`. -/
structure ZWireValue where
  isInfinity : Bool
  value : Int
deriving DecidableEq

/-- A parsed JSON event object as it travels on the wire / in the log: the
six known kinds (a `ShapeZChanged` carries the sentinel-encoded `z`), or an
object whose `type` is none of the six discriminants. -/
inductive WireEvent where
  | shapeAdded (base : BaseEvent) (shape : Shape)
  | shapeRemoved (base : BaseEvent) (shapeId : String)
  | shapeSelected (base : BaseEvent) (shapeId : String) (options : SelectionOptions)
  | shapeDeselected (base : BaseEvent) (shapeId : String)
  | shapeUpdated (base : BaseEvent) (shape : PartialShape)
  | shapeZChanged (base : BaseEvent) (shapeId : String) (z : ZWireValue)
  | unknownType (type : String) (base : BaseEvent)
deriving DecidableEq

/-- `serializeEvent(event)`: a `ShapeZChanged` replaces `z` by
`{ isInfinity: event.z === Infinity || event.z === -Infinity,
   value: event.z > 0 ? 1 : -1 }`; every other kind is stringified
structurally.  (Modelled at the level of the parsed JSON value:
`JSON.parse ∘ JSON.stringify` is the identity on these records.) -/
def serializeEvent : ShapeEvent → WireEvent
  | .shapeZChanged b sid z =>
      .shapeZChanged b sid
        { isInfinity := z == .posInf || z == .negInf
          value := if z.gtZero then 1 else -1 }
  | .shapeAdded b s => .shapeAdded b s
  | .shapeRemoved b i => .shapeRemoved b i
  | .shapeSelected b i o => .shapeSelected b i o
  | .shapeDeselected b i => .shapeDeselected b i
  | .shapeUpdated b s => .shapeUpdated b s

/-- The runtime value `deserializeEvent` returns: the component only
annotates it as `ShapeEvent`, so an object with an unknown `type` flows
through unchanged. -/
inductive ParsedEvent where
  | event (e : ShapeEvent)
  | unknown (type : String) (base : BaseEvent)
deriving DecidableEq

/-- `deserializeEvent(event)`: re-parse with a reviver only when the parsed
`type` is `ShapeZChanged` (decoding `z` back through
`value.isInfinity ? Infinity * value.value : value.value`); every other
parsed object — including one with an unrecognized `type` — is returned
as-is. -/
def deserializeEvent : WireEvent → ParsedEvent
  | .shapeZChanged b sid zw =>
      .event (.shapeZChanged b sid
        (if zw.isInfinity then jsInfinityMul zw.value else .num zw.value))
  | .shapeAdded b s => .event (.shapeAdded b s)
  | .shapeRemoved b i => .event (.shapeRemoved b i)
  | .shapeSelected b i o => .event (.shapeSelected b i o)
  | .shapeDeselected b i => .event (.shapeDeselected b i)
  | .shapeUpdated b s => .event (.shapeUpdated b s)
  | .unknownType t b => .unknown t b

/-! ## Log compaction (canvas.mts, optimizeLogButton handler)

The handler splits the text-area log into lines, reverses them, and walks
the reversed list with a `removedShapes` set, dropping every
`ShapeRemoved` and every other event whose (shape) id is already dead;
kept events are pushed and finally reversed back.  The log lines are
parsed with plain `JSON.parse` (not `deserializeEvent`), so the walk runs
over wire-level objects. -/

/-- One iteration of the `for (const rawEvent of rawEvents)` loop: the state
is the `removedShapes` set (as a list) and the `resultEvents` array. -/
def compactStep (state : List String × List WireEvent) (event : WireEvent) :
    List String × List WireEvent :=
  match event with
  | .shapeRemoved _ sid => (sid :: state.1, state.2)
  | .shapeZChanged _ sid _ =>
      if sid ∈ state.1 then state else (state.1, state.2 ++ [event])
  | .shapeDeselected _ sid =>
      if sid ∈ state.1 then state else (state.1, state.2 ++ [event])
  | .shapeSelected _ sid _ =>
      if sid ∈ state.1 then state else (state.1, state.2 ++ [event])
  | .shapeAdded _ sh =>
      if sh.id ∈ state.1 then state else (state.1, state.2 ++ [event])
  | .shapeUpdated _ sh =>
      if sh.id ∈ state.1 then state else (state.1, state.2 ++ [event])
  | .unknownType _ _ => (state.1, state.2 ++ [event])

/-- The whole compaction pass: reverse, scan, reverse the kept events. -/
def compactEventLog (log : List WireEvent) : List WireEvent :=
  ((log.reverse.foldl compactStep ([], [])).2).reverse

/-! ## The DrawingCanvas store projection (Components/DrawingCanvas)

`DrawingCanvas.attachShapeEventListeners` registers one listener per event
kind; each mutates the component's private `ArrayShapeStore<CanvasShape>`.
None of them inspects `event.origin` or `event.external`. -/

open ArrayShapeStore in
/-- The combined effect of the `DrawingCanvas` listeners on its store.
Redraw requests are display-only and carry no store state.  Arms that throw
in JS (a `TypeError` on `undefined` from `convertShape` of an unknown kind,
or a store exception) leave the listener with the store as the exception
found it. -/
def drawingCanvasApplyEvent (st : ArrayShapeStore CanvasShape) :
    ShapeEvent → ArrayShapeStore CanvasShape
  | .shapeAdded _ shape =>
      match convertShape shape with
      | some cs => st.addShape cs
      | none => st
  | .shapeRemoved _ sid => st.removeShape sid
  | .shapeZChanged _ sid z =>
      if z = .negInf then
        match st.sendShapeToBack sid with
        | .ok st2 => st2
        | .error (_, st2) => st2
      else if z = .posInf then
        match st.sendShapeToFront sid with
        | .ok st2 => st2
        | .error (_, st2) => st2
      else
        match z with
        | .num n =>
            match st.changeShapeZ sid n with
            | .ok st2 => st2
            | .error (_, st2) => st2
        | _ => st  -- a NaN delta: the shift loop body never runs and no
                   -- array element changes; no event source produces one
  | .shapeSelected _ sid options =>
      -- `shape.selectionOptions = event.options`: in-place mutation of the
      -- object the store holds at the looked-up index
      match mapGet st.shapeLookup sid with
      | none => st
      | some idx =>
        match st.shapes.get? idx with
        | none => st
        | some cs =>
            { st with shapes :=
                st.shapes.set idx { cs with selectionOptions := some options } }
  | .shapeDeselected _ sid =>
      match mapGet st.shapeLookup sid with
      | none => st
      | some idx =>
        match st.shapes.get? idx with
        | none => st
        | some cs =>
            { st with shapes :=
                st.shapes.set idx { cs with selectionOptions := none } }
  | .shapeUpdated _ partial_ =>
      match st.getShape partial_.id with
      | none => st
      | some canvasShape =>
        let shape := objectAssign canvasShape.shape partial_
        match convertShape shape with
        | none => st  -- `newShape` is undefined: assigning its
                      -- `selectionOptions` throws before `addShape` runs
        | some newShape =>
            st.addShape
              { newShape with selectionOptions :=
                  (st.getShape partial_.id).bind (·.selectionOptions) }

/-- The websocket gateway's `default:` arm for an inbound message:
`deserializeEvent`, mark the event `external`, dispatch it on the global
bus — with no comparison of `event.origin` against any local origin.  As
seen by the `DrawingCanvas` projection: an unknown `type` is dispatched
under a key no listener is registered for, so the store is untouched. -/
def inboundDispatchCanvas (st : ArrayShapeStore CanvasShape) (raw : WireEvent) :
    ArrayShapeStore CanvasShape :=
  match deserializeEvent raw with
  | .event e => drawingCanvasApplyEvent st e.markExternal
  | .unknown _ _ => st

/-! ## The SelectionTool projection (SelectionTool.mts, part of the
event-sourced variant)

The tool keeps its own `ArrayShapeStore<CanvasShape>` plus the
`selectedShapes` array and the alt-click cycling cursor.  Its
`ShapeSelected` / `ShapeDeselected` listeners — and only those — begin with
`if (event.origin === this.currentEventOrigin) return`. -/

structure SelectionToolState where
  shapeStore : ArrayShapeStore CanvasShape
  selectedShapes : List CanvasShape
  lastCycleSelectedShape : Option CanvasShape
deriving DecidableEq

open ArrayShapeStore in
/-- The combined effect of the `SelectionTool` listeners
(`attachShapeEventListeners`) on the tool's state; `localOrigin` is the
tool's `currentEventOrigin`.  There is no `ShapeUpdated` listener. -/
def selectionToolApplyEvent (localOrigin : String) (ts : SelectionToolState) :
    ShapeEvent → SelectionToolState
  | .shapeAdded _ shape =>
      match convertShape shape with
      | some cs => { ts with shapeStore := ts.shapeStore.addShape cs }
      | none => ts
  | .shapeRemoved _ sid =>
      { shapeStore := ts.shapeStore.removeShape sid
        selectedShapes := ts.selectedShapes.filter (fun s => id s != sid)
        lastCycleSelectedShape :=
          match ts.lastCycleSelectedShape with
          | some cs => if id cs == sid then none else some cs
          | none => none }
  | .shapeZChanged _ sid z =>
      if z = .negInf then
        match ts.shapeStore.sendShapeToBack sid with
        | .ok st2 => { ts with shapeStore := st2 }
        | .error (_, st2) => { ts with shapeStore := st2 }
      else if z = .posInf then
        match ts.shapeStore.sendShapeToFront sid with
        | .ok st2 => { ts with shapeStore := st2 }
        | .error (_, st2) => { ts with shapeStore := st2 }
      else
        match z with
        | .num n =>
            match ts.shapeStore.changeShapeZ sid n with
            | .ok st2 => { ts with shapeStore := st2 }
            | .error (_, st2) => { ts with shapeStore := st2 }
        | _ => ts  -- NaN delta, see drawingCanvasApplyEvent
  | .shapeSelected base sid _ =>
      if base.origin == localOrigin then ts  -- do not react to own events
      else
        match ts.shapeStore.getShape sid with
        | some shape => { ts with selectedShapes := ts.selectedShapes ++ [shape] }
        | none => ts  -- console.warn only
  | .shapeDeselected base sid =>
      if base.origin == localOrigin then ts  -- do not react to own events
      else
        { ts with selectedShapes := ts.selectedShapes.filter (fun s => id s != sid) }
  | .shapeUpdated _ _ => ts  -- no listener registered for this kind

/-! ## The event bus (EventBus.mts)

`ClientOnlyEventBus.addEventListener` pushes the listener onto the per-kind
array and returns the closure
`() => { eventListeners.splice(eventListeners.indexOf(listener), 1) }`.
Listeners are compared by reference; they are modelled by opaque numeric
identities.  The state below is the listener array of one event kind. -/

/-- JS `Array.prototype.indexOf`: first index or `-1`. -/
def jsIndexOf (xs : List Nat) (l : Nat) : Int :=
  match jsFindIndex (fun x => x == l) xs with
  | some i => (i : Int)
  | none => -1

/-- JS `splice(start, 1)`: a negative `start` counts from the end
(clamped at 0), so `splice(-1, 1)` deletes the last element. -/
def jsSpliceOne {α : Type} (xs : List α) (start : Int) : List α :=
  let s : Nat := if start < 0 then (max ((xs.length : Int) + start) 0).toNat
                 else (min start (xs.length : Int)).toNat
  xs.take s ++ xs.drop (s + 1)

/-- `addEventListener(type, listener)`: append to the kind's array. -/
def addEventListener (listeners : List Nat) (l : Nat) : List Nat :=
  listeners ++ [l]

/-- The body of the unsubscribe closure returned by `addEventListener`:
`eventListeners.splice(eventListeners.indexOf(listener), 1)`, applied to the
kind's current listener array. -/
def removeListener (listeners : List Nat) (l : Nat) : List Nat :=
  jsSpliceOne listeners (jsIndexOf listeners l)

/-- `dispatchEvent` invokes exactly the currently registered listeners, in
array order; a listener receives events for the kind iff it is in the array. -/
def busDelivers (listeners : List Nat) (l : Nat) : Prop := l ∈ listeners

instance (xs : List Nat) (l : Nat) : Decidable (busDelivers xs l) := by
  unfold busDelivers; infer_instance

/-! ## The store invariant

`storeInv` is the agreement between `shapes` and `shapeLookup`: ids are
pairwise distinct, lookup keys are pairwise distinct, every binding points at
the array position actually holding its shape, and every shape has a binding.
It is stated over the finitely many list members (hence decidable); the
pointwise form `lookupSpec` is derived from it below. -/

def keysNodup (m : Lookup) : Prop := (m.map Prod.fst).Nodup

instance (m : Lookup) : Decidable (keysNodup m) := by
  unfold keysNodup; infer_instance

def storeInv {α : Type} [HasId α] (st : ArrayShapeStore α) : Prop :=
  (st.shapes.map id).Nodup ∧ keysNodup st.shapeLookup ∧
  (∀ p ∈ st.shapeLookup, jsFindIndex (fun s => id s == p.1) st.shapes = some p.2) ∧
  (∀ s ∈ st.shapes, (mapGet st.shapeLookup (id s)).isSome)

instance {α : Type} [HasId α] [DecidableEq α] (st : ArrayShapeStore α) :
    Decidable (storeInv st) := by
  unfold storeInv; infer_instance

/-- The pointwise agreement: the lookup, queried at any key, returns exactly
the first array index holding a shape of that id. -/
def lookupSpec {α : Type} [HasId α] (st : ArrayShapeStore α) : Prop :=
  ∀ k, mapGet st.shapeLookup k = jsFindIndex (fun s => id s == k) st.shapes

/-! ### Lemmas about `jsFindIndex`, `mapGet`, `mapSet`, `buildLookup` -/

theorem jsFindIndex_isSome {α : Type} (p : α → Bool) (xs : List α) :
    (jsFindIndex p xs).isSome ↔ ∃ x ∈ xs, p x := by
  induction xs with
  | nil => simp [jsFindIndex]
  | cons a as ih =>
    by_cases h : p a
    · simp [jsFindIndex, h]
    · cases hfi : jsFindIndex p as with
      | none =>
        rw [hfi] at ih
        simp only [jsFindIndex, h, Bool.false_eq_true, if_false, hfi,
          Option.map_none', Option.isSome_none]
        constructor
        · intro hfalse
          exact absurd hfalse (by simp)
        · rintro ⟨x, hx, hpx⟩
          rcases List.mem_cons.mp hx with rfl | hx2
          · exact absurd hpx h
          · exact absurd (ih.mpr ⟨x, hx2, hpx⟩) (by simp)
      | some n =>
        rw [hfi] at ih
        simp only [jsFindIndex, h, Bool.false_eq_true, if_false, hfi]
        simp only [Option.map_some', Option.isSome_some, true_iff] at ih ⊢
        obtain ⟨x, hx, hpx⟩ := ih
        exact ⟨x, List.mem_cons_of_mem a hx, hpx⟩

theorem jsFindIndex_of_eq_some {α : Type} {p : α → Bool} {xs : List α} {n : Nat}
    (h : jsFindIndex p xs = some n) :
    ∃ x, xs.get? n = some x ∧ p x = true := by
  induction xs generalizing n with
  | nil => simp [jsFindIndex] at h
  | cons a as ih =>
    by_cases hp : p a
    · simp [jsFindIndex, hp] at h
      subst h
      exact ⟨a, rfl, hp⟩
    · simp only [jsFindIndex, hp, Bool.false_eq_true, if_false,
        Option.map_eq_some'] at h
      obtain ⟨m, hm, rfl⟩ := h
      obtain ⟨x, hx, hpx⟩ := ih hm
      exact ⟨x, by simpa using hx, hpx⟩

/-- With pairwise distinct ids, a shape's position determines the result of
the id scan. -/
theorem jsFindIndex_of_nodup {α : Type} [HasId α] {xs : List α} {n : Nat} {x : α}
    (hnd : (xs.map id).Nodup) (hx : xs.get? n = some x) :
    jsFindIndex (fun s => id s == id x) xs = some n := by
  induction xs generalizing n with
  | nil => simp at hx
  | cons a as ih =>
    rw [List.map_cons, List.nodup_cons] at hnd
    cases n with
    | zero =>
      simp only [List.get?] at hx
      cases hx
      simp [jsFindIndex]
    | succ m =>
      simp only [List.get?] at hx
      have hxm : x ∈ as := List.get?_mem hx
      have hne : (id a == id x) = false := by
        rw [beq_eq_false_iff_ne]
        intro hc
        exact hnd.1 (hc ▸ List.mem_map_of_mem id hxm)
      simp [jsFindIndex, hne, ih hnd.2 hx]

theorem find?_map_keep (rest : List (String × Nat)) (k k2 : String) (v : Nat)
    (hk2 : k2 ≠ k) :
    (rest.map (fun p => if p.1 == k then (k, v) else p)).find? (fun p => p.1 == k2)
      = rest.find? (fun p => p.1 == k2) := by
  induction rest with
  | nil => rfl
  | cons q rest ih =>
    by_cases hq : q.1 = k
    · have h1 : (q.1 == k) = true := beq_iff_eq.mpr hq
      have h2 : ((k : String) == k2) = false :=
        beq_eq_false_iff_ne.mpr (fun h => hk2 h.symm)
      have h3 : (q.1 == k2) = false := by
        rw [beq_eq_false_iff_ne]
        intro h
        rw [hq] at h
        exact hk2 h.symm
      rw [List.map_cons, if_pos h1]
      simp only [List.find?, h2, h3]
      exact ih
    · have h1 : (q.1 == k) = false := beq_eq_false_iff_ne.mpr hq
      rw [List.map_cons, if_neg (by simp [h1])]
      by_cases hq2 : q.1 = k2
      · simp only [List.find?, beq_iff_eq.mpr hq2]
      · simp only [List.find?, beq_eq_false_iff_ne.mpr hq2]
        exact ih

theorem mapGet_mapSet (m : Lookup) (k : String) (v : Nat) (k2 : String) :
    mapGet (mapSet m k v) k2 = if k2 = k then some v else mapGet m k2 := by
  unfold mapSet
  by_cases hin : m.any (fun p => p.1 == k)
  · rw [if_pos hin]
    induction m with
    | nil => simp at hin
    | cons p rest ih =>
      by_cases hpk : p.1 = k
      · have h1 : (p.1 == k) = true := beq_iff_eq.mpr hpk
        by_cases hk2 : k2 = k
        · subst hk2
          simp [mapGet, List.find?, h1]
        · have h2 : (k == k2) = false :=
            beq_eq_false_iff_ne.mpr (fun h => hk2 h.symm)
          have h3 : (p.1 == k2) = false :=
            beq_eq_false_iff_ne.mpr (fun h => hk2 (hpk ▸ h).symm)
          simp only [List.map_cons, h1, if_true, mapGet, List.find?, h2, h3,
            if_neg hk2]
          rw [find?_map_keep rest k k2 v hk2]
      · have h1 : (p.1 == k) = false := beq_eq_false_iff_ne.mpr hpk
        have hrest : rest.any (fun p => p.1 == k) := by
          rcases List.any_eq_true.mp hin with ⟨q, hq, hqk⟩
          rcases List.mem_cons.mp hq with rfl | hq2
          · exact absurd hqk (by simp [h1])
          · exact List.any_eq_true.mpr ⟨q, hq2, hqk⟩
        by_cases hpk2 : p.1 = k2
        · have h2 : (p.1 == k2) = true := beq_iff_eq.mpr hpk2
          have hk2 : k2 ≠ k := fun h => hpk (hpk2 ▸ h)
          simp [mapGet, List.find?, h1, h2, if_neg hk2]
        · have h2 : (p.1 == k2) = false := beq_eq_false_iff_ne.mpr hpk2
          have := ih hrest
          simp only [mapGet, List.find?, h2, List.map_cons, h1,
            Bool.false_eq_true, if_false] at this ⊢
          exact this
  · rw [if_neg hin]
    have hnone : m.find? (fun p => p.1 == k) = none := by
      rw [List.find?_eq_none]
      intro q hq
      simp only [Bool.not_eq_true]
      by_contra hc
      simp only [Bool.not_eq_false] at hc
      exact hin (List.any_eq_true.mpr ⟨q, hq, hc⟩)
    by_cases hk2 : k2 = k
    · subst hk2
      unfold mapGet
      rw [List.find?_append, hnone]
      simp
    · have h2 : (k == k2) = false := beq_eq_false_iff_ne.mpr (fun h => hk2 h.symm)
      unfold mapGet
      rw [List.find?_append]
      cases hf : m.find? (fun p => p.1 == k2) with
      | some q => simp [hk2]
      | none => simp [List.find?, h2, hk2]

theorem keys_mapSet (m : Lookup) (k : String) (v : Nat) :
    (mapSet m k v).map Prod.fst =
      if m.any (fun p => p.1 == k) then m.map Prod.fst
      else m.map Prod.fst ++ [k] := by
  unfold mapSet
  by_cases hin : m.any (fun p => p.1 == k)
  · rw [if_pos hin, if_pos hin, List.map_map]
    apply List.map_congr_left
    intro p _
    by_cases hp : p.1 = k
    · simp [Function.comp, beq_iff_eq.mpr hp, hp]
    · simp [Function.comp, beq_eq_false_iff_ne.mpr hp]
  · rw [if_neg hin, if_neg hin, List.map_append]
    rfl

theorem keysNodup_mapSet {m : Lookup} (k : String) (v : Nat)
    (h : keysNodup m) : keysNodup (mapSet m k v) := by
  unfold keysNodup
  rw [keys_mapSet]
  by_cases hin : m.any (fun p => p.1 == k)
  · rw [if_pos hin]; exact h
  · rw [if_neg hin]
    rw [List.nodup_append]
    refine ⟨h, List.nodup_singleton k, ?_⟩
    intro x hx hxk
    rcases List.mem_map.mp hx with ⟨p, hp, rfl⟩
    rcases List.mem_singleton.mp hxk with rfl
    exact hin (List.any_eq_true.mpr ⟨p, hp, beq_iff_eq.mpr rfl⟩)

theorem keys_bumpIndices (m : Lookup) :
    (ArrayShapeStore.bumpIndices m).map Prod.fst = m.map Prod.fst := by
  unfold ArrayShapeStore.bumpIndices
  rw [List.map_map]
  rfl

theorem mapGet_bumpIndices (m : Lookup) (k : String) :
    mapGet (ArrayShapeStore.bumpIndices m) k = (mapGet m k).map (· + 1) := by
  induction m with
  | nil => rfl
  | cons p rest ih =>
    unfold ArrayShapeStore.bumpIndices at ih ⊢
    by_cases hp : p.1 = k
    · simp [mapGet, List.find?, beq_iff_eq.mpr hp]
    · simp only [mapGet, List.map_cons, List.find?,
        beq_eq_false_iff_ne.mpr hp] at ih ⊢
      exact ih

theorem keysNodup_foldl_mapSet (ps : List (String × Nat)) (m0 : Lookup)
    (h : keysNodup m0) :
    keysNodup (ps.foldl (fun m p => mapSet m p.1 p.2) m0) := by
  induction ps generalizing m0 with
  | nil => exact h
  | cons p rest ih => exact ih _ (keysNodup_mapSet _ _ h)

theorem mapGet_foldl_mapSet (ps : List (String × Nat)) (m0 : Lookup) (k : String)
    (h : (ps.map Prod.fst).Nodup) :
    mapGet (ps.foldl (fun m p => mapSet m p.1 p.2) m0) k
      = match ps.find? (fun p => p.1 == k) with
        | some p => some p.2
        | none => mapGet m0 k := by
  induction ps generalizing m0 with
  | nil => rfl
  | cons p rest ih =>
    rw [List.map_cons, List.nodup_cons] at h
    rw [List.foldl_cons, ih (mapSet m0 p.1 p.2) h.2]
    by_cases hpk : p.1 = k
    · have hrest : rest.find? (fun q => q.1 == k) = none := by
        rw [List.find?_eq_none]
        intro q hq
        simp only [Bool.not_eq_true, beq_eq_false_iff_ne]
        intro hc
        exact h.1 (hpk ▸ hc ▸ List.mem_map_of_mem Prod.fst hq)
      rw [hrest]
      simp only [List.find?, beq_iff_eq.mpr hpk]
      rw [mapGet_mapSet, if_pos hpk.symm]
    · simp only [List.find?, beq_eq_false_iff_ne.mpr hpk]
      cases hf : rest.find? (fun q => q.1 == k) with
      | some q => rfl
      | none => rw [mapGet_mapSet, if_neg (fun h2 => hpk h2.symm)]

theorem keys_enumIds {α : Type} (idf : α → String) (j : Nat) (xs : List α) :
    (enumIds idf j xs).map Prod.fst = xs.map idf := by
  induction xs generalizing j with
  | nil => rfl
  | cons s rest ih => simp [enumIds, ih]

theorem find?_enumIds {α : Type} (idf : α → String) (j : Nat) (xs : List α)
    (k : String) :
    (enumIds idf j xs).find? (fun p => p.1 == k)
      = (jsFindIndex (fun s => idf s == k) xs).map (fun n => (k, n + j)) := by
  induction xs generalizing j with
  | nil => rfl
  | cons s rest ih =>
    by_cases hs : idf s = k
    · simp [enumIds, List.find?, jsFindIndex, beq_iff_eq.mpr hs, hs]
    · have hb : (idf s == k) = false := beq_eq_false_iff_ne.mpr hs
      cases hfi : jsFindIndex (fun x => idf x == k) rest with
      | none =>
        simp [enumIds, List.find?, jsFindIndex, hb, ih (j + 1), hfi]
      | some n =>
        simp only [enumIds, List.find?, jsFindIndex, hb, Bool.false_eq_true,
          if_false, ih (j + 1), hfi, Option.map_some']
        exact congrArg some (by rw [Prod.mk.injEq]; exact ⟨rfl, by omega⟩)

theorem mapGet_buildLookup {α : Type} (idf : α → String) (xs : List α)
    (k : String) (hnd : (xs.map idf).Nodup) :
    mapGet (buildLookup idf xs) k = jsFindIndex (fun s => idf s == k) xs := by
  unfold buildLookup
  rw [mapGet_foldl_mapSet _ _ _ (by rw [keys_enumIds]; exact hnd),
    find?_enumIds]
  cases jsFindIndex (fun s => idf s == k) xs with
  | none => rfl
  | some n => simp

theorem keysNodup_buildLookup {α : Type} (idf : α → String) (xs : List α) :
    keysNodup (buildLookup idf xs) :=
  keysNodup_foldl_mapSet _ _ (by simp [keysNodup])

/-! ### `storeInv` and `lookupSpec` -/

theorem storeInv.toSpec {α : Type} [HasId α] {st : ArrayShapeStore α}
    (h : storeInv st) : lookupSpec st := by
  obtain ⟨hnd, hknd, hpt, hall⟩ := h
  intro k
  unfold mapGet
  cases hf : st.shapeLookup.find? (fun p => p.1 == k) with
  | some p =>
    have hp := List.find?_some hf
    have hmem := List.mem_of_find?_eq_some hf
    have hpk : p.1 = k := beq_iff_eq.mp hp
    rw [Option.map_some', ← hpk]
    exact (hpt p hmem).symm
  | none =>
    rw [Option.map_none']
    cases hfi : jsFindIndex (fun s => id s == k) st.shapes with
    | none => rfl
    | some n =>
      obtain ⟨s, hs, hsk⟩ := jsFindIndex_of_eq_some hfi
      have hsmem : s ∈ st.shapes := List.get?_mem hs
      have := hall s hsmem
      rw [Option.isSome_iff_exists] at this
      obtain ⟨m, hm⟩ := this
      unfold mapGet at hm
      rw [Option.map_eq_some'] at hm
      obtain ⟨q, hq, _⟩ := hm
      have hq1 := List.find?_some hq
      have hqk : q.1 = id s := beq_iff_eq.mp hq1
      rw [beq_iff_eq] at hsk
      rw [hsk] at hqk
      have : st.shapeLookup.find? (fun p => p.1 == k) ≠ none := by
        intro hc
        rw [List.find?_eq_none] at hc
        exact hc q (List.mem_of_find?_eq_some hq) (by simp [hqk])
      exact absurd hf this

/-- With unique keys, the first binding of a member's key is that member. -/
theorem find?_key_of_mem {m : Lookup} (h2 : keysNodup m) {p : String × Nat}
    (hp : p ∈ m) : m.find? (fun q => q.1 == p.1) = some p := by
  induction m with
  | nil => simp at hp
  | cons q rest ih =>
    unfold keysNodup at h2
    rw [List.map_cons, List.nodup_cons] at h2
    rcases List.mem_cons.mp hp with rfl | hp2
    · simp [List.find?]
    · have hq : (q.1 == p.1) = false := by
        rw [beq_eq_false_iff_ne]
        intro hc
        exact h2.1 (hc ▸ List.mem_map_of_mem Prod.fst hp2)
      simp only [List.find?, hq]
      exact ih h2.2 hp2

theorem storeInv_mk {α : Type} [HasId α] {st : ArrayShapeStore α}
    (h1 : (st.shapes.map id).Nodup) (h2 : keysNodup st.shapeLookup)
    (h3 : lookupSpec st) : storeInv st := by
  refine ⟨h1, h2, ?_, ?_⟩
  · intro p hp
    rw [← h3 p.1]
    unfold mapGet
    rw [find?_key_of_mem h2 hp]
    rfl
  · intro s hs
    rw [h3 (id s)]
    rw [jsFindIndex_isSome]
    exact ⟨s, hs, beq_iff_eq.mpr rfl⟩

/-- The id scan only looks at ids. -/
theorem jsFindIndex_congr_ids {α : Type} [HasId α] {xs ys : List α}
    (h : xs.map id = ys.map id) (k : String) :
    jsFindIndex (fun s => id s == k) xs = jsFindIndex (fun s => id s == k) ys := by
  induction xs generalizing ys with
  | nil => cases ys with
    | nil => rfl
    | cons y ys => simp at h
  | cons x xs ih =>
    cases ys with
    | nil => simp at h
    | cons y ys =>
      simp only [List.map_cons, List.cons.injEq] at h
      simp [jsFindIndex, h.1, ih h.2]

theorem jsFindIndex_append {α : Type} (p : α → Bool) (xs ys : List α) :
    jsFindIndex p (xs ++ ys)
      = match jsFindIndex p xs with
        | some n => some n
        | none => (jsFindIndex p ys).map (· + xs.length) := by
  induction xs with
  | nil => simp [jsFindIndex]
  | cons a as ih =>
    by_cases hp : p a
    · simp [jsFindIndex, hp]
    · have hstep : jsFindIndex p ((a :: as) ++ ys)
          = (jsFindIndex p (as ++ ys)).map (· + 1) := by
        simp [jsFindIndex, hp]
      have hstep2 : jsFindIndex p (a :: as)
          = (jsFindIndex p as).map (· + 1) := by
        simp [jsFindIndex, hp]
      rw [hstep, hstep2, ih]
      cases jsFindIndex p as with
      | some n => rfl
      | none =>
        cases jsFindIndex p ys with
        | none => rfl
        | some n =>
          simp only [Option.map_none', Option.map_some', List.length_cons]
          exact congrArg some (by omega)

theorem jsFindIndex_eq_none {α : Type} {p : α → Bool} {xs : List α} :
    jsFindIndex p xs = none ↔ ∀ x ∈ xs, ¬ p x := by
  constructor
  · intro h x hx hpx
    have := (jsFindIndex_isSome p xs).mpr ⟨x, hx, hpx⟩
    rw [h] at this
    simp at this
  · intro h
    cases hfi : jsFindIndex p xs with
    | none => rfl
    | some n =>
      have := (jsFindIndex_isSome p xs).mp (by rw [hfi]; rfl)
      obtain ⟨x, hx, hpx⟩ := this
      exact absurd hpx (h x hx)

theorem set_same {β : Type} {l : List β} {n : Nat} {a : β}
    (h : l.get? n = some a) : l.set n a = l := by
  induction l generalizing n with
  | nil => simp at h
  | cons b bs ih =>
    cases n with
    | zero => simp only [List.get?] at h; cases h; rfl
    | succ m =>
      simp only [List.get?] at h
      simp [List.set, ih h]

/-- Under the invariant, a lookup hit describes an actual array slot. -/
theorem inv_get_of_lookup {α : Type} [HasId α] {st : ArrayShapeStore α}
    (h : storeInv st) {sid : String} {i : Nat}
    (hl : mapGet st.shapeLookup sid = some i) :
    ∃ x, st.shapes.get? i = some x ∧ id x = sid := by
  have hspec := h.toSpec sid
  rw [hl] at hspec
  obtain ⟨x, hx, hpx⟩ := jsFindIndex_of_eq_some hspec.symm
  exact ⟨x, hx, beq_iff_eq.mp hpx⟩

/-! ### Preservation of the invariant by the store operations -/

theorem storeInv_empty {α : Type} [HasId α] :
    storeInv (ArrayShapeStore.empty (α := α)) := by
  refine ⟨by simp [ArrayShapeStore.empty], by simp [ArrayShapeStore.empty, keysNodup], ?_, ?_⟩
  · intro p hp
    simp [ArrayShapeStore.empty] at hp
  · intro s hs
    simp [ArrayShapeStore.empty] at hs

theorem storeInv_addShape {α : Type} [HasId α] {st : ArrayShapeStore α}
    (h : storeInv st) (s : α) : storeInv (st.addShape s) := by
  have hspec := h.toSpec
  unfold ArrayShapeStore.addShape
  cases hl : mapGet st.shapeLookup (id s) with
  | some i =>
    obtain ⟨x, hx, hxid⟩ := inv_get_of_lookup h hl
    have hids : (st.shapes.set i s).map id = st.shapes.map id := by
      rw [List.map_set]
      apply set_same
      rw [← hxid]
      cases hg : (st.shapes.map id).get? i with
      | none =>
        rw [List.get?_eq_none] at hg
        rw [List.length_map] at hg
        rw [List.get?_eq_none.mpr hg] at hx
        cases hx
      | some y =>
        rw [List.get?_map, hx] at hg
        simp only [Option.map_some'] at hg
        rw [hg]
    apply storeInv_mk
    · simpa [hids] using h.1
    · exact h.2.1
    · intro k
      have := @jsFindIndex_congr_ids _ _ (st.shapes.set i s) st.shapes
        hids k
      simpa [this] using hspec k
  | none =>
    have hnotin : id s ∉ st.shapes.map id := by
      have hfi := hspec (id s)
      rw [hl] at hfi
      intro hmem
      rcases List.mem_map.mp hmem with ⟨x, hx, hxid⟩
      exact jsFindIndex_eq_none.mp hfi.symm x hx (by simp [hxid])
    apply storeInv_mk
    · rw [List.map_append, List.nodup_append]
      refine ⟨h.1, by simp, ?_⟩
      intro a ha hb
      simp only [List.map_cons, List.map_nil, List.mem_singleton] at hb
      subst hb
      exact hnotin ha
    · exact keysNodup_mapSet _ _ h.2.1
    · intro k
      rw [mapGet_mapSet]
      rw [jsFindIndex_append]
      by_cases hk : k = id s
      · have hnone : jsFindIndex (fun x => id x == k) st.shapes = none := by
          rw [jsFindIndex_eq_none]
          intro x hx hpx
          have hxk : id x = k := beq_iff_eq.mp hpx
          apply hnotin
          rw [← hk, ← hxk]
          exact List.mem_map_of_mem id hx
        rw [if_pos hk, hnone]
        simp [jsFindIndex, beq_iff_eq.mpr hk.symm]
      · rw [if_neg hk, hspec k]
        cases jsFindIndex (fun x => id x == k) st.shapes with
        | some n => rfl
        | none =>
          have : (id s == k) = false := beq_eq_false_iff_ne.mpr (fun h2 => hk h2.symm)
          simp [jsFindIndex, this]

theorem storeInv_removeShape {α : Type} [HasId α] {st : ArrayShapeStore α}
    (hnd : (st.shapes.map id).Nodup) (sid : String) :
    storeInv (st.removeShape sid) := by
  unfold ArrayShapeStore.removeShape
  have hsub : List.Sublist
      ((st.shapes.filter (fun s => id s != sid)).map id)
      (st.shapes.map id) :=
    (List.filter_sublist st.shapes).map id
  have hnd2 : ((st.shapes.filter (fun s => id s != sid)).map id).Nodup :=
    hnd.sublist hsub
  apply storeInv_mk
  · exact hnd2
  · exact keysNodup_buildLookup _ _
  · intro k
    exact mapGet_buildLookup _ _ _ hnd2

/-- Under the invariant the filter inside `removeShape` deletes exactly the
slot holding `sid` (if any); in particular the removed element's id is gone. -/
theorem removed_id_not_mem {α : Type} [HasId α] (shapes : List α) (sid : String) :
    sid ∉ (shapes.filter (fun s => id s != sid)).map id := by
  intro hmem
  rcases List.mem_map.mp hmem with ⟨x, hx, hxid⟩
  have := List.of_mem_filter hx
  rw [hxid] at this
  simp at this

/-! Equation lemmas for the throwing operations. -/

theorem sendShapeToBack_absent {α : Type} [HasId α] {st : ArrayShapeStore α}
    {sid : String} (hl : mapGet st.shapeLookup sid = none) :
    st.sendShapeToBack sid = .error ("Shape not found in lookup", st) := by
  simp only [ArrayShapeStore.sendShapeToBack, hl]

theorem sendShapeToBack_present {α : Type} [HasId α] {st : ArrayShapeStore α}
    {sid : String} {i : Nat} {x : α}
    (hl : mapGet st.shapeLookup sid = some i) (hx : st.shapes.get? i = some x) :
    st.sendShapeToBack sid
      = .ok { shapes := x :: (st.removeShape sid).shapes,
              shapeLookup :=
                mapSet (ArrayShapeStore.bumpIndices (st.removeShape sid).shapeLookup)
                  (id x) 0 } := by
  simp only [ArrayShapeStore.sendShapeToBack, hl, hx]

theorem sendShapeToFront_absent {α : Type} [HasId α] {st : ArrayShapeStore α}
    {sid : String} (hl : mapGet st.shapeLookup sid = none) :
    st.sendShapeToFront sid = .error ("Shape not found in lookup", st) := by
  simp only [ArrayShapeStore.sendShapeToFront, hl]

theorem sendShapeToFront_present {α : Type} [HasId α] {st : ArrayShapeStore α}
    {sid : String} {i : Nat} {x : α}
    (hl : mapGet st.shapeLookup sid = some i) (hx : st.shapes.get? i = some x) :
    st.sendShapeToFront sid = .ok ((st.removeShape sid).addShape x) := by
  simp only [ArrayShapeStore.sendShapeToFront, hl, hx]

theorem storeInv_sendShapeToBack_ok {α : Type} [HasId α] {st st2 : ArrayShapeStore α}
    (h : storeInv st) {sid : String}
    (hok : st.sendShapeToBack sid = .ok st2) : storeInv st2 := by
  cases hl : mapGet st.shapeLookup sid with
  | none => rw [sendShapeToBack_absent hl] at hok; cases hok
  | some i =>
    obtain ⟨x, hx, hxid⟩ := inv_get_of_lookup h hl
    rw [sendShapeToBack_present hl hx] at hok
    cases hok
    have hinv1 := storeInv_removeShape h.1 sid
    have hspec1 := hinv1.toSpec
    apply storeInv_mk
    · rw [List.map_cons, List.nodup_cons]
      refine ⟨?_, hinv1.1⟩
      rw [hxid]
      exact removed_id_not_mem st.shapes sid
    · exact keysNodup_mapSet _ _ (by
        unfold keysNodup
        rw [keys_bumpIndices]
        exact hinv1.2.1)
    · intro k
      rw [mapGet_mapSet]
      by_cases hk : k = id x
      · subst hk
        rw [if_pos rfl]
        simp [jsFindIndex]
      · rw [if_neg hk, mapGet_bumpIndices, hspec1 k]
        have : (id x == k) = false := beq_eq_false_iff_ne.mpr (fun h2 => hk h2.symm)
        simp [jsFindIndex, this]

theorem storeInv_sendShapeToFront_ok {α : Type} [HasId α] {st st2 : ArrayShapeStore α}
    (h : storeInv st) {sid : String}
    (hok : st.sendShapeToFront sid = .ok st2) : storeInv st2 := by
  cases hl : mapGet st.shapeLookup sid with
  | none => rw [sendShapeToFront_absent hl] at hok; cases hok
  | some i =>
    obtain ⟨x, hx, _⟩ := inv_get_of_lookup h hl
    rw [sendShapeToFront_present hl hx] at hok
    cases hok
    exact storeInv_addShape (storeInv_removeShape h.1 sid) x

/-- Under the invariant, a throwing exit of `sendShapeToBack` or
`sendShapeToFront` happens before any mutation. -/
theorem sendShape_error_state {α : Type} [HasId α] {st st2 : ArrayShapeStore α}
    (h : storeInv st) {sid : String} {e : String} :
    (st.sendShapeToBack sid = .error (e, st2) → st2 = st) ∧
    (st.sendShapeToFront sid = .error (e, st2) → st2 = st) := by
  cases hl : mapGet st.shapeLookup sid with
  | none =>
    constructor
    · intro hc
      rw [sendShapeToBack_absent hl] at hc
      cases hc
      rfl
    · intro hc
      rw [sendShapeToFront_absent hl] at hc
      cases hc
      rfl
  | some i =>
    obtain ⟨x, hx, _⟩ := inv_get_of_lookup h hl
    constructor
    · intro hc
      rw [sendShapeToBack_present hl hx] at hc
      cases hc
    · intro hc
      rw [sendShapeToFront_present hl hx] at hc
      cases hc

/-! ### The `changeShapeZ` shift loop, positive direction

After `j` iterations of the loop with `direction = 1`, slots
`index .. index+j-1` hold the original occupants of `index+1 .. index+j`,
and each of those occupants' cached indices has been decremented; everything
else is untouched.  `shapesMidPos` is the array after `j` iterations and
`lkDescPos` the pointwise description of the lookup. -/

def shapesMidPos {α : Type} (orig : List α) (idx j : Nat) : List α :=
  orig.take idx ++ (orig.drop (idx + 1)).take j ++ orig.drop (idx + j)

def lkDescPos {α : Type} [HasId α] (orig : List α) (idx j : Nat) (l : Lookup) : Prop :=
  ∀ k, mapGet l k =
    (jsFindIndex (fun s => id s == k) orig).map
      (fun p => if idx + 1 ≤ p ∧ p ≤ idx + j then p - 1 else p)

theorem shapesMidPos_zero {α : Type} (orig : List α) (idx : Nat) :
    shapesMidPos orig idx 0 = orig := by
  unfold shapesMidPos
  simp [List.take_append_drop]

theorem lkDescPos_zero {α : Type} [HasId α] {orig : List α} {idx : Nat}
    {l : Lookup} (h : ∀ k, mapGet l k = jsFindIndex (fun s => id s == k) orig) :
    lkDescPos orig idx 0 l := by
  intro k
  rw [h k]
  cases jsFindIndex (fun s => id s == k) orig with
  | none => rfl
  | some p =>
    rw [Option.map_some', if_neg (by omega : ¬(idx + 1 ≤ p ∧ p ≤ idx + 0))]

/-- One write of the positive-direction loop extends the shifted window. -/
theorem shapesMidPos_set {α : Type} {orig : List α} {idx j : Nat} {y : α}
    (hy : orig.get? (idx + j + 1) = some y)
    (hlen : idx + j + 1 < orig.length) :
    (shapesMidPos orig idx j).set (idx + j) y = shapesMidPos orig idx (j + 1) := by
  unfold shapesMidPos
  have hidx : (orig.take idx).length = idx := by
    rw [List.length_take]
    omega
  have hmid : ((orig.drop (idx + 1)).take j).length = j := by
    rw [List.length_take, List.length_drop]
    omega
  rw [List.append_assoc, List.set_append_right _ _ (by omega : (orig.take idx).length ≤ idx + j)]
  rw [hidx]
  have h2 : idx + j - idx = j := by omega
  rw [h2, List.set_append_right _ _ (by omega : ((orig.drop (idx + 1)).take j).length ≤ j)]
  rw [hmid, Nat.sub_self]
  have hdl : idx + j < orig.length := by omega
  rw [List.drop_eq_getElem_cons hdl, List.set_cons_zero]
  have hy2 : orig[idx + j + 1]? = some y := by
    rw [← List.get?_eq_getElem?]
    exact hy
  have htake : (orig.drop (idx + 1)).take (j + 1)
      = (orig.drop (idx + 1)).take j ++ [y] := by
    rw [List.take_succ]
    congr 1
    rw [List.getElem?_drop]
    have h3 : idx + 1 + j = idx + j + 1 := by omega
    rw [h3, hy2]
    rfl
  rw [htake, List.append_assoc, List.append_assoc]
  rfl

/-- Reading one slot past the shifted window gives the original occupant. -/
theorem shapesMidPos_get_read {α : Type} {orig : List α} {idx j : Nat}
    (hlen : idx + j + 1 < orig.length) :
    (shapesMidPos orig idx j).get? (idx + j + 1) = orig.get? (idx + j + 1) := by
  unfold shapesMidPos
  have hidx : (orig.take idx).length = idx := by
    rw [List.length_take]; omega
  have hmid : ((orig.drop (idx + 1)).take j).length = j := by
    rw [List.length_take, List.length_drop]; omega
  rw [List.append_assoc,
    List.get?_append_right (by omega : (orig.take idx).length ≤ idx + j + 1),
    hidx,
    List.get?_append_right (by rw [hmid]; omega), hmid, List.get?_drop]
  congr 1
  omega

/-- The positive-direction shift loop, run to completion from iteration `j`. -/
theorem zShiftLoop_pos {α : Type} [HasId α] (orig : List α) (idx m : Nat)
    (hnd : (orig.map id).Nodup) (hbound : idx + m < orig.length) :
    ∀ (r j : Nat), j + r = m → ∀ (l : Lookup), keysNodup l →
    lkDescPos orig idx j l →
    ∃ lN, ArrayShapeStore.zShiftLoop idx 1 j r (shapesMidPos orig idx j) l
        = .ok (shapesMidPos orig idx m, lN) ∧ keysNodup lN ∧
      lkDescPos orig idx m lN := by
  intro r
  induction r with
  | zero =>
    intro j hj l hkn hdesc
    have hjm : j = m := by omega
    subst hjm
    exact ⟨l, rfl, hkn, hdesc⟩
  | succ r ih =>
    intro j hj l hkn hdesc
    have hlt : idx + j + 1 < orig.length := by omega
    cases hy : orig.get? (idx + j + 1) with
    | none =>
      rw [List.get?_eq_none] at hy
      omega
    | some y =>
    have hread : jsGetI (shapesMidPos orig idx j)
        ((idx : Int) + (j : Int) * 1 + 1) = some y := by
      unfold jsGetI
      rw [if_pos (by omega : (0 : Int) ≤ (idx : Int) + (j : Int) * 1 + 1)]
      have htn : ((idx : Int) + (j : Int) * 1 + 1).toNat = idx + j + 1 := by omega
      rw [htn, shapesMidPos_get_read hlt, hy]
    have hfy : jsFindIndex (fun s => id s == id y) orig = some (idx + j + 1) :=
      jsFindIndex_of_nodup hnd hy
    have hly : mapGet l (id y) = some (idx + j + 1) := by
      rw [hdesc (id y), hfy, Option.map_some',
        if_neg (by omega : ¬(idx + 1 ≤ idx + j + 1 ∧ idx + j + 1 ≤ idx + j))]
    have hset : jsSetI (shapesMidPos orig idx j) ((idx : Int) + (j : Int) * 1) y
        = shapesMidPos orig idx (j + 1) := by
      unfold jsSetI
      rw [if_pos (by omega : (0 : Int) ≤ (idx : Int) + (j : Int) * 1)]
      have htn : ((idx : Int) + (j : Int) * 1).toNat = idx + j := by omega
      rw [htn]
      exact shapesMidPos_set hy hlt
    have htn2 : ((idx : Int) + (j : Int) * 1).toNat = idx + j := by omega
    have hkn1 : keysNodup (mapSet l (id y) (idx + j)) := keysNodup_mapSet _ _ hkn
    have hdesc1 : lkDescPos orig idx (j + 1) (mapSet l (id y) (idx + j)) := by
      intro k
      rw [mapGet_mapSet]
      by_cases hk : k = id y
      · rw [if_pos hk, hk, hfy, Option.map_some',
          if_pos (by omega : idx + 1 ≤ idx + j + 1 ∧ idx + j + 1 ≤ idx + (j + 1))]
        exact congrArg some (by omega)
      · rw [if_neg hk, hdesc k]
        cases hfk : jsFindIndex (fun s => id s == k) orig with
        | none => rfl
        | some p =>
          have hpne : p ≠ idx + j + 1 := by
            intro hp
            subst hp
            obtain ⟨x, hx, hpx⟩ := jsFindIndex_of_eq_some hfk
            rw [hy] at hx
            cases hx
            exact hk (beq_iff_eq.mp hpx).symm
          rw [Option.map_some', Option.map_some']
          congr 1
          by_cases hc : idx + 1 ≤ p ∧ p ≤ idx + j
          · rw [if_pos hc, if_pos (by omega)]
          · rw [if_neg hc, if_neg (by omega)]
    obtain ⟨lN, hloop, hknN, hdescN⟩ :=
      ih (j + 1) (by omega) (mapSet l (id y) (idx + j)) hkn1 hdesc1
    refine ⟨lN, ?_, hknN, hdescN⟩
    simp only [ArrayShapeStore.zShiftLoop, hread, hly, hset, htn2]
    exact hloop

/-! ### The `changeShapeZ` shift loop, negative direction

After `j` iterations with `direction = -1`, slots `idx-j+1 .. idx` hold the
original occupants of `idx-j .. idx-1` and their cached indices have been
incremented; everything else is untouched. -/

def shapesMidNeg {α : Type} (orig : List α) (idx j : Nat) : List α :=
  orig.take (idx - j + 1) ++ (orig.drop (idx - j)).take j ++ orig.drop (idx + 1)

def lkDescNeg {α : Type} [HasId α] (orig : List α) (idx j : Nat) (l : Lookup) : Prop :=
  ∀ k, mapGet l k =
    (jsFindIndex (fun s => id s == k) orig).map
      (fun p => if idx - j ≤ p ∧ p < idx then p + 1 else p)

theorem shapesMidNeg_zero {α : Type} (orig : List α) (idx : Nat) :
    shapesMidNeg orig idx 0 = orig := by
  unfold shapesMidNeg
  simp [List.take_append_drop]

theorem lkDescNeg_zero {α : Type} [HasId α] {orig : List α} {idx : Nat}
    {l : Lookup} (h : ∀ k, mapGet l k = jsFindIndex (fun s => id s == k) orig) :
    lkDescNeg orig idx 0 l := by
  intro k
  rw [h k]
  cases jsFindIndex (fun s => id s == k) orig with
  | none => rfl
  | some p =>
    rw [Option.map_some', if_neg (by omega : ¬(idx - 0 ≤ p ∧ p < idx))]

/-- Reading one slot below the shifted window gives the original occupant. -/
theorem shapesMidNeg_get_read {α : Type} {orig : List α} {idx j : Nat}
    (hj : j + 1 ≤ idx) (hlen : idx < orig.length) :
    (shapesMidNeg orig idx j).get? (idx - j - 1) = orig.get? (idx - j - 1) := by
  unfold shapesMidNeg
  rw [List.append_assoc]
  have hAlen : (orig.take (idx - j + 1)).length = idx - j + 1 := by
    rw [List.length_take]; omega
  rw [List.get?_append (by rw [hAlen]; omega)]
  rw [List.get?_take (by omega : idx - j - 1 < idx - j + 1)]

/-- One write of the negative-direction loop extends the shifted window. -/
theorem shapesMidNeg_set {α : Type} {orig : List α} {idx j : Nat} {y : α}
    (hy : orig.get? (idx - j - 1) = some y)
    (hj : j + 1 ≤ idx) (hlen : idx < orig.length) :
    (shapesMidNeg orig idx j).set (idx - j) y = shapesMidNeg orig idx (j + 1) := by
  unfold shapesMidNeg
  have hysome : orig[idx - j - 1]? = some y := by
    rw [← List.get?_eq_getElem?]; exact hy
  have htk : orig.take (idx - j + 1) = orig.take (idx - j) ++ [orig[idx - j]] := by
    have h1 : idx - j + 1 = (idx - j) + 1 := by omega
    rw [h1, List.take_succ]
    congr 1
    rw [List.getElem?_eq_getElem (by omega : idx - j < orig.length)]
    rfl
  have hAlen : (orig.take (idx - j + 1)).length = idx - j + 1 := by
    rw [List.length_take]; omega
  rw [List.append_assoc,
    List.set_append_left _ _ (by rw [hAlen]; omega), htk,
    List.set_append_right _ _ (by rw [List.length_take]; omega)]
  have h2 : idx - j - (orig.take (idx - j)).length = 0 := by
    rw [List.length_take]; omega
  rw [h2, List.set_cons_zero]
  have h3 : idx - (j + 1) + 1 = idx - j := by omega
  have h4 : idx - (j + 1) = idx - j - 1 := by omega
  have hb1 : idx - j - 1 < orig.length := by omega
  have h5 : orig.drop (idx - j - 1) = orig[idx - j - 1] :: orig.drop (idx - j) := by
    have h7 : idx - j - 1 + 1 = idx - j := by omega
    rw [List.drop_eq_getElem_cons hb1, h7]
  have hyv : orig[idx - j - 1] = y := by
    have h6 := List.getElem?_eq_getElem hb1
    rw [hysome] at h6
    exact ((Option.some.injEq _ _).mp h6).symm
  rw [h3, h4, h5, hyv]
  simp only [List.take_succ_cons, List.append_assoc, List.singleton_append,
    List.cons_append, List.nil_append]

/-- The negative-direction shift loop, run to completion from iteration `j`. -/
theorem zShiftLoop_neg {α : Type} [HasId α] (orig : List α) (idx m : Nat)
    (hnd : (orig.map id).Nodup) (hm : m ≤ idx) (hlen : idx < orig.length) :
    ∀ (r j : Nat), j + r = m → ∀ (l : Lookup), keysNodup l →
    lkDescNeg orig idx j l →
    ∃ lN, ArrayShapeStore.zShiftLoop idx (-1) j r (shapesMidNeg orig idx j) l
        = .ok (shapesMidNeg orig idx m, lN) ∧ keysNodup lN ∧
      lkDescNeg orig idx m lN := by
  intro r
  induction r with
  | zero =>
    intro j hj l hkn hdesc
    have hjm : j = m := by omega
    subst hjm
    exact ⟨l, rfl, hkn, hdesc⟩
  | succ r ih =>
    intro j hj l hkn hdesc
    have hj1 : j + 1 ≤ idx := by omega
    cases hy : orig.get? (idx - j - 1) with
    | none =>
      rw [List.get?_eq_none] at hy
      omega
    | some y =>
    have hread : jsGetI (shapesMidNeg orig idx j)
        ((idx : Int) + (j : Int) * (-1) + (-1)) = some y := by
      unfold jsGetI
      rw [if_pos (by omega : (0 : Int) ≤ (idx : Int) + (j : Int) * (-1) + (-1))]
      have htn : ((idx : Int) + (j : Int) * (-1) + (-1)).toNat = idx - j - 1 := by
        omega
      rw [htn, shapesMidNeg_get_read hj1 hlen, hy]
    have hfy : jsFindIndex (fun s => id s == id y) orig = some (idx - j - 1) :=
      jsFindIndex_of_nodup hnd hy
    have hly : mapGet l (id y) = some (idx - j - 1) := by
      rw [hdesc (id y), hfy, Option.map_some',
        if_neg (by omega : ¬(idx - j ≤ idx - j - 1 ∧ idx - j - 1 < idx))]
    have hset : jsSetI (shapesMidNeg orig idx j) ((idx : Int) + (j : Int) * (-1)) y
        = shapesMidNeg orig idx (j + 1) := by
      unfold jsSetI
      rw [if_pos (by omega : (0 : Int) ≤ (idx : Int) + (j : Int) * (-1))]
      have htn : ((idx : Int) + (j : Int) * (-1)).toNat = idx - j := by omega
      rw [htn]
      exact shapesMidNeg_set hy hj1 hlen
    have htn2 : ((idx : Int) + (j : Int) * (-1)).toNat = idx - j := by omega
    have hkn1 : keysNodup (mapSet l (id y) (idx - j)) := keysNodup_mapSet _ _ hkn
    have hdesc1 : lkDescNeg orig idx (j + 1) (mapSet l (id y) (idx - j)) := by
      intro k
      rw [mapGet_mapSet]
      by_cases hk : k = id y
      · rw [if_pos hk, hk, hfy, Option.map_some',
          if_pos (by omega : idx - (j + 1) ≤ idx - j - 1 ∧ idx - j - 1 < idx)]
        exact congrArg some (by omega)
      · rw [if_neg hk, hdesc k]
        cases hfk : jsFindIndex (fun s => id s == k) orig with
        | none => rfl
        | some p =>
          have hpne : p ≠ idx - j - 1 := by
            intro hp
            subst hp
            obtain ⟨x, hx, hpx⟩ := jsFindIndex_of_eq_some hfk
            rw [hy] at hx
            cases hx
            exact hk (beq_iff_eq.mp hpx).symm
          rw [Option.map_some', Option.map_some']
          congr 1
          by_cases hc : idx - j ≤ p ∧ p < idx
          · rw [if_pos hc, if_pos (by omega)]
          · rw [if_neg hc, if_neg (by omega)]
    obtain ⟨lN, hloop, hknN, hdescN⟩ :=
      ih (j + 1) (by omega) (mapSet l (id y) (idx - j)) hkn1 hdesc1
    refine ⟨lN, ?_, hknN, hdescN⟩
    simp only [ArrayShapeStore.zShiftLoop, hread, hly, hset, htn2]
    exact hloop

/-! ### The final array after `changeShapeZ` -/

/-- The array after moving the occupant of `idx` up by `m` layers. -/
def zMovedPos {α : Type} (orig : List α) (idx m : Nat) (x0 : α) : List α :=
  orig.take idx ++ (orig.drop (idx + 1)).take m ++ x0 :: orig.drop (idx + m + 1)

/-- The array after moving the occupant of `idx` down by `m` layers. -/
def zMovedNeg {α : Type} (orig : List α) (idx m : Nat) (x0 : α) : List α :=
  orig.take (idx - m) ++ x0 :: (orig.drop (idx - m)).take m ++ orig.drop (idx + 1)

theorem shapesMidPos_set_final {α : Type} {orig : List α} {idx m : Nat} {x0 : α}
    (hb : idx + m < orig.length) :
    (shapesMidPos orig idx m).set (idx + m) x0 = zMovedPos orig idx m x0 := by
  unfold shapesMidPos zMovedPos
  have hidx : (orig.take idx).length = idx := by
    rw [List.length_take]; omega
  have hmid : ((orig.drop (idx + 1)).take m).length = m := by
    rw [List.length_take, List.length_drop]; omega
  rw [List.append_assoc, List.set_append_right _ _ (by omega),
    hidx, List.set_append_right _ _ (by rw [hmid]; omega), hmid]
  have h2 : idx + m - idx - m = 0 := by omega
  rw [h2, List.drop_eq_getElem_cons hb, List.set_cons_zero, List.append_assoc]

theorem shapesMidNeg_set_final {α : Type} {orig : List α} {idx m : Nat} {x0 : α}
    (hm : m ≤ idx) (hlen : idx < orig.length) :
    (shapesMidNeg orig idx m).set (idx - m) x0 = zMovedNeg orig idx m x0 := by
  unfold shapesMidNeg zMovedNeg
  have hAlen : (orig.take (idx - m + 1)).length = idx - m + 1 := by
    rw [List.length_take]; omega
  have htk : orig.take (idx - m + 1)
      = orig.take (idx - m) ++ [orig[idx - m]] := by
    have h1 : idx - m + 1 = (idx - m) + 1 := by omega
    rw [h1, List.take_succ]
    congr 1
    rw [List.getElem?_eq_getElem (by omega : idx - m < orig.length)]
    rfl
  rw [List.append_assoc, List.set_append_left _ _ (by rw [hAlen]; omega), htk,
    List.set_append_right _ _ (by rw [List.length_take]; omega)]
  have h2 : idx - m - (orig.take (idx - m)).length = 0 := by
    rw [List.length_take]; omega
  rw [h2, List.set_cons_zero]
  simp only [List.append_assoc, List.singleton_append, List.cons_append,
    List.nil_append]

theorem zMovedPos_length {α : Type} {orig : List α} {idx m : Nat} {x0 : α}
    (hb : idx + m < orig.length) :
    (zMovedPos orig idx m x0).length = orig.length := by
  unfold zMovedPos
  rw [List.length_append, List.length_append, List.length_cons,
    List.length_take, List.length_take, List.length_drop, List.length_drop]
  omega

theorem zMovedPos_get_lo {α : Type} {orig : List α} {idx m : Nat} {x0 : α}
    {q : Nat} (hq : q < idx) (hb : idx + m < orig.length) :
    (zMovedPos orig idx m x0).get? q = orig.get? q := by
  unfold zMovedPos
  rw [List.append_assoc,
    List.get?_append (by rw [List.length_take]; omega : q < (orig.take idx).length)]
  rw [List.get?_take hq]

theorem zMovedPos_get_mid {α : Type} {orig : List α} {idx m : Nat} {x0 : α}
    {q : Nat} (h1 : idx ≤ q) (h2 : q < idx + m) (hb : idx + m < orig.length) :
    (zMovedPos orig idx m x0).get? q = orig.get? (q + 1) := by
  unfold zMovedPos
  have hidx : (orig.take idx).length = idx := by
    rw [List.length_take]; omega
  have hmid : ((orig.drop (idx + 1)).take m).length = m := by
    rw [List.length_take, List.length_drop]; omega
  rw [List.append_assoc, List.get?_append_right (by rw [hidx]; omega), hidx,
    List.get?_append (by rw [hmid]; omega),
    List.get?_take (by omega : q - idx < m), List.get?_drop]
  congr 1
  omega

theorem zMovedPos_get_at {α : Type} {orig : List α} {idx m : Nat} {x0 : α}
    (hb : idx + m < orig.length) :
    (zMovedPos orig idx m x0).get? (idx + m) = some x0 := by
  unfold zMovedPos
  have hidx : (orig.take idx).length = idx := by
    rw [List.length_take]; omega
  have hmid : ((orig.drop (idx + 1)).take m).length = m := by
    rw [List.length_take, List.length_drop]; omega
  rw [List.append_assoc, List.get?_append_right (by rw [hidx]; omega), hidx,
    List.get?_append_right (by rw [hmid]; omega), hmid]
  have h2 : idx + m - idx - m = 0 := by omega
  rw [h2]
  rfl

theorem zMovedPos_get_hi {α : Type} {orig : List α} {idx m : Nat} {x0 : α}
    {q : Nat} (hq : idx + m < q) (hb : idx + m < orig.length) :
    (zMovedPos orig idx m x0).get? q = orig.get? q := by
  unfold zMovedPos
  have hidx : (orig.take idx).length = idx := by
    rw [List.length_take]; omega
  have hmid : ((orig.drop (idx + 1)).take m).length = m := by
    rw [List.length_take, List.length_drop]; omega
  rw [List.append_assoc, List.get?_append_right (by rw [hidx]; omega), hidx,
    List.get?_append_right (by rw [hmid]; omega), hmid]
  cases hqc : q - idx - m with
  | zero => omega
  | succ t =>
    simp only [List.get?]
    rw [List.get?_drop]
    congr 1
    omega

theorem zMovedPos_perm {α : Type} {orig : List α} {idx m : Nat} {x0 : α}
    (hx : orig.get? idx = some x0) (hb : idx + m < orig.length) :
    (zMovedPos orig idx m x0).Perm orig := by
  have hidxlen : idx < orig.length := by omega
  have hx0 : orig[idx] = x0 := by
    have h6 := List.getElem?_eq_getElem hidxlen
    rw [← List.get?_eq_getElem?, hx] at h6
    exact ((Option.some.injEq _ _).mp h6).symm
  have horig : orig = orig.take idx
      ++ x0 :: ((orig.drop (idx + 1)).take m ++ orig.drop (idx + m + 1)) := by
    conv_lhs => rw [← List.take_append_drop idx orig]
    congr 1
    rw [List.drop_eq_getElem_cons hidxlen, hx0]
    congr 1
    conv_lhs => rw [← List.take_append_drop m (orig.drop (idx + 1))]
    congr 1
    rw [List.drop_drop]
    congr 1
    omega
  have hassoc : zMovedPos orig idx m x0
      = orig.take idx ++ ((orig.drop (idx + 1)).take m
          ++ x0 :: orig.drop (idx + m + 1)) := by
    unfold zMovedPos
    rw [List.append_assoc]
  rw [hassoc]
  conv_rhs => rw [horig]
  exact List.Perm.append_left _ List.perm_middle

theorem zMovedNeg_length {α : Type} {orig : List α} {idx m : Nat} {x0 : α}
    (hm : m ≤ idx) (hlen : idx < orig.length) :
    (zMovedNeg orig idx m x0).length = orig.length := by
  unfold zMovedNeg
  rw [List.length_append, List.length_append, List.length_cons,
    List.length_take, List.length_take, List.length_drop, List.length_drop]
  omega

theorem zMovedNeg_assoc {α : Type} (orig : List α) (idx m : Nat) (x0 : α) :
    zMovedNeg orig idx m x0
      = orig.take (idx - m)
          ++ x0 :: ((orig.drop (idx - m)).take m ++ orig.drop (idx + 1)) := by
  unfold zMovedNeg
  rw [List.append_assoc, List.cons_append]

theorem zMovedNeg_get_lo {α : Type} {orig : List α} {idx m : Nat} {x0 : α}
    {q : Nat} (hq : q < idx - m) (hm : m ≤ idx) (hlen : idx < orig.length) :
    (zMovedNeg orig idx m x0).get? q = orig.get? q := by
  rw [zMovedNeg_assoc]
  rw [List.get?_append (by rw [List.length_take]; omega : q < (orig.take (idx - m)).length)]
  rw [List.get?_take hq]

theorem zMovedNeg_get_at {α : Type} {orig : List α} {idx m : Nat} {x0 : α}
    (hm : m ≤ idx) (hlen : idx < orig.length) :
    (zMovedNeg orig idx m x0).get? (idx - m) = some x0 := by
  rw [zMovedNeg_assoc]
  have hA : (orig.take (idx - m)).length = idx - m := by
    rw [List.length_take]; omega
  rw [List.get?_append_right (by rw [hA]), hA, Nat.sub_self]
  rfl

theorem zMovedNeg_get_mid {α : Type} {orig : List α} {idx m : Nat} {x0 : α}
    {q : Nat} (h1 : idx - m < q) (h2 : q ≤ idx) (hm : m ≤ idx)
    (hlen : idx < orig.length) :
    (zMovedNeg orig idx m x0).get? q = orig.get? (q - 1) := by
  rw [zMovedNeg_assoc]
  have hA : (orig.take (idx - m)).length = idx - m := by
    rw [List.length_take]; omega
  have hB : ((orig.drop (idx - m)).take m).length = m := by
    rw [List.length_take, List.length_drop]; omega
  rw [List.get?_append_right (by rw [hA]; omega), hA]
  cases hqc : q - (idx - m) with
  | zero => omega
  | succ t =>
    simp only [List.get?]
    rw [List.get?_append (by rw [hB]; omega : t < ((orig.drop (idx - m)).take m).length),
      List.get?_take (by omega : t < m), List.get?_drop]
    congr 1
    omega

theorem zMovedNeg_get_hi {α : Type} {orig : List α} {idx m : Nat} {x0 : α}
    {q : Nat} (hq : idx < q) (hm : m ≤ idx) (hlen : idx < orig.length) :
    (zMovedNeg orig idx m x0).get? q = orig.get? q := by
  rw [zMovedNeg_assoc]
  have hA : (orig.take (idx - m)).length = idx - m := by
    rw [List.length_take]; omega
  have hB : ((orig.drop (idx - m)).take m).length = m := by
    rw [List.length_take, List.length_drop]; omega
  rw [List.get?_append_right (by rw [hA]; omega), hA]
  cases hqc : q - (idx - m) with
  | zero => omega
  | succ t =>
    simp only [List.get?]
    rw [List.get?_append_right (by rw [hB]; omega), hB, List.get?_drop]
    congr 1
    omega

theorem zMovedNeg_perm {α : Type} {orig : List α} {idx m : Nat} {x0 : α}
    (hx : orig.get? idx = some x0) (hm : m ≤ idx) (hlen : idx < orig.length) :
    (zMovedNeg orig idx m x0).Perm orig := by
  have hx0 : orig[idx] = x0 := by
    have h6 := List.getElem?_eq_getElem hlen
    rw [← List.get?_eq_getElem?, hx] at h6
    exact ((Option.some.injEq _ _).mp h6).symm
  have horig : orig = orig.take (idx - m)
      ++ ((orig.drop (idx - m)).take m ++ x0 :: orig.drop (idx + 1)) := by
    conv_lhs => rw [← List.take_append_drop (idx - m) orig]
    congr 1
    conv_lhs => rw [← List.take_append_drop m (orig.drop (idx - m))]
    congr 1
    rw [List.drop_drop]
    have h7 : idx - m + m = idx := by omega
    rw [h7, List.drop_eq_getElem_cons hlen, hx0]
  rw [zMovedNeg_assoc]
  conv_rhs => rw [horig]
  exact List.Perm.append_left _ List.perm_middle.symm

/-! ### Equations for `changeShapeZ` -/

theorem changeShapeZ_zero {α : Type} [HasId α] (st : ArrayShapeStore α)
    (sid : String) : st.changeShapeZ sid 0 = .ok st := by
  unfold ArrayShapeStore.changeShapeZ
  rw [if_pos rfl]

theorem changeShapeZ_absent {α : Type} [HasId α] {st : ArrayShapeStore α}
    {sid : String} {d : Int} (hd : d ≠ 0)
    (hl : mapGet st.shapeLookup sid = none) :
    st.changeShapeZ sid d = .error ("Shape not found in lookup", st) := by
  simp only [ArrayShapeStore.changeShapeZ, if_neg hd, hl]

theorem changeShapeZ_toBack {α : Type} [HasId α] {st : ArrayShapeStore α}
    {sid : String} {d : Int} {idx : Nat} (hd : d ≠ 0)
    (hl : mapGet st.shapeLookup sid = some idx)
    (hg : (idx : Int) + d < 0) :
    st.changeShapeZ sid d = st.sendShapeToBack sid := by
  simp only [ArrayShapeStore.changeShapeZ, if_neg hd, hl, if_pos hg]

theorem changeShapeZ_toFront {α : Type} [HasId α] {st : ArrayShapeStore α}
    {sid : String} {d : Int} {idx : Nat} (hd : d ≠ 0)
    (hl : mapGet st.shapeLookup sid = some idx)
    (hg1 : ¬((idx : Int) + d < 0))
    (hg2 : (st.shapes.length : Int) ≤ (idx : Int) + d) :
    st.changeShapeZ sid d = st.sendShapeToFront sid := by
  simp only [ArrayShapeStore.changeShapeZ, if_neg hd, hl, if_neg hg1, if_pos hg2]

theorem changeShapeZ_pos_eq {α : Type} [HasId α] {st : ArrayShapeStore α}
    (h : storeInv st) {sid : String} {idx m : Nat} {x0 : α}
    (hl : mapGet st.shapeLookup sid = some idx)
    (hx : st.shapes.get? idx = some x0)
    (hm : 0 < m) (hbound : idx + m < st.shapes.length) :
    ∃ lN, st.changeShapeZ sid (m : Int)
        = .ok { shapes := zMovedPos st.shapes idx m x0,
                shapeLookup := mapSet lN sid (idx + m) } ∧
      keysNodup lN ∧ lkDescPos st.shapes idx m lN := by
  obtain ⟨lN, hloop, hknN, hdescN⟩ :=
    zShiftLoop_pos st.shapes idx m h.1 hbound m 0 (by omega) st.shapeLookup
      h.2.1 (lkDescPos_zero (fun k => h.toSpec k))
  rw [shapesMidPos_zero] at hloop
  refine ⟨lN, ?_, hknN, hdescN⟩
  have hd0 : (m : Int) ≠ 0 := by omega
  have hg1 : ¬((idx : Int) + (m : Int) < 0) := by omega
  have hg2 : ¬((st.shapes.length : Int) ≤ (idx : Int) + (m : Int)) := by omega
  have hdir : (0 : Int) < (m : Int) := by omega
  have hset : jsSetI (shapesMidPos st.shapes idx m) ((idx : Int) + (m : Int)) x0
      = zMovedPos st.shapes idx m x0 := by
    unfold jsSetI
    rw [if_pos (by omega)]
    have htn : ((idx : Int) + (m : Int)).toNat = idx + m := by omega
    rw [htn]
    exact shapesMidPos_set_final hbound
  have htn : ((idx : Int) + (m : Int)).toNat = idx + m := by omega
  simp only [ArrayShapeStore.changeShapeZ, if_neg hd0, hl, if_neg hg1,
    if_neg hg2, hx, if_pos hdir, Int.natAbs_ofNat, hloop, hset, htn]

theorem changeShapeZ_neg_eq {α : Type} [HasId α] {st : ArrayShapeStore α}
    (h : storeInv st) {sid : String} {idx m : Nat} {x0 : α}
    (hl : mapGet st.shapeLookup sid = some idx)
    (hx : st.shapes.get? idx = some x0)
    (hm : 0 < m) (hmi : m ≤ idx) (hlen : idx < st.shapes.length) :
    ∃ lN, st.changeShapeZ sid (-(m : Int))
        = .ok { shapes := zMovedNeg st.shapes idx m x0,
                shapeLookup := mapSet lN sid (idx - m) } ∧
      keysNodup lN ∧ lkDescNeg st.shapes idx m lN := by
  obtain ⟨lN, hloop, hknN, hdescN⟩ :=
    zShiftLoop_neg st.shapes idx m h.1 hmi hlen m 0 (by omega) st.shapeLookup
      h.2.1 (lkDescNeg_zero (fun k => h.toSpec k))
  rw [shapesMidNeg_zero] at hloop
  refine ⟨lN, ?_, hknN, hdescN⟩
  have hd0 : -(m : Int) ≠ 0 := by omega
  have hg1 : ¬((idx : Int) + -(m : Int) < 0) := by omega
  have hg2 : ¬((st.shapes.length : Int) ≤ (idx : Int) + -(m : Int)) := by omega
  have hdir : ¬((0 : Int) < -(m : Int)) := by omega
  have hnat : (-(m : Int)).natAbs = m := by
    rw [Int.natAbs_neg, Int.natAbs_ofNat]
  have hset : jsSetI (shapesMidNeg st.shapes idx m) ((idx : Int) + -(m : Int)) x0
      = zMovedNeg st.shapes idx m x0 := by
    unfold jsSetI
    rw [if_pos (by omega)]
    have htn : ((idx : Int) + -(m : Int)).toNat = idx - m := by omega
    rw [htn]
    exact shapesMidNeg_set_final hmi hlen
  have htn : ((idx : Int) + -(m : Int)).toNat = idx - m := by omega
  simp only [ArrayShapeStore.changeShapeZ, if_neg hd0, hl, if_neg hg1,
    if_neg hg2, hx, if_neg hdir, hnat, hloop, hset, htn]

/-! ### The moved store satisfies the lookup specification -/

theorem zMoved_spec_pos {α : Type} [HasId α] {orig : List α} {lN : Lookup}
    {idx m : Nat} {x0 : α} {sid : String}
    (hnd : (orig.map id).Nodup)
    (hx : orig.get? idx = some x0) (hsid : id x0 = sid)
    (hb : idx + m < orig.length)
    (hdesc : lkDescPos orig idx m lN) :
    ∀ k, mapGet (mapSet lN sid (idx + m)) k
      = jsFindIndex (fun s => id s == k) (zMovedPos orig idx m x0) := by
  have hperm := zMovedPos_perm hx hb
  have hFnd : ((zMovedPos orig idx m x0).map id).Nodup :=
    ((hperm.map id).nodup_iff).mpr hnd
  have hsidIdx : jsFindIndex (fun s => id s == sid) orig = some idx := by
    rw [← hsid]
    exact jsFindIndex_of_nodup hnd hx
  intro k
  rw [mapGet_mapSet]
  by_cases hk : k = sid
  · subst hk
    rw [if_pos rfl, ← hsid]
    exact (jsFindIndex_of_nodup hFnd (zMovedPos_get_at hb)).symm
  · rw [if_neg hk, hdesc k]
    cases hfk : jsFindIndex (fun s => id s == k) orig with
    | none =>
      rw [Option.map_none']
      symm
      rw [jsFindIndex_eq_none]
      intro x hxm hpx
      have : x ∈ orig := (hperm.mem_iff).mp hxm
      exact jsFindIndex_eq_none.mp
        (by rw [← hfk]) x this hpx
    | some p =>
      obtain ⟨xp, hxp, hpk⟩ := jsFindIndex_of_eq_some hfk
      have hkid : id xp = k := beq_iff_eq.mp hpk
      have hpidx : p ≠ idx := by
        intro hc
        subst hc
        rw [hx] at hxp
        cases hxp
        exact hk (hkid ▸ hsid)
      rw [Option.map_some']
      by_cases hwin : idx + 1 ≤ p ∧ p ≤ idx + m
      · rw [if_pos hwin]
        have hget : (zMovedPos orig idx m x0).get? (p - 1) = some xp := by
          rw [zMovedPos_get_mid (by omega) (by omega) hb]
          have h8 : p - 1 + 1 = p := by omega
          rw [h8, hxp]
        symm
        rw [← hkid]
        exact jsFindIndex_of_nodup hFnd hget
      · rw [if_neg hwin]
        have hget : (zMovedPos orig idx m x0).get? p = some xp := by
          by_cases hlo : p < idx
          · rw [zMovedPos_get_lo hlo hb, hxp]
          · rw [zMovedPos_get_hi (by omega) hb, hxp]
        symm
        rw [← hkid]
        exact jsFindIndex_of_nodup hFnd hget

theorem zMoved_spec_neg {α : Type} [HasId α] {orig : List α} {lN : Lookup}
    {idx m : Nat} {x0 : α} {sid : String}
    (hnd : (orig.map id).Nodup)
    (hx : orig.get? idx = some x0) (hsid : id x0 = sid)
    (hm : m ≤ idx) (hlen : idx < orig.length)
    (hdesc : lkDescNeg orig idx m lN) :
    ∀ k, mapGet (mapSet lN sid (idx - m)) k
      = jsFindIndex (fun s => id s == k) (zMovedNeg orig idx m x0) := by
  have hperm := zMovedNeg_perm hx hm hlen
  have hFnd : ((zMovedNeg orig idx m x0).map id).Nodup :=
    ((hperm.map id).nodup_iff).mpr hnd
  intro k
  rw [mapGet_mapSet]
  by_cases hk : k = sid
  · subst hk
    rw [if_pos rfl, ← hsid]
    exact (jsFindIndex_of_nodup hFnd (zMovedNeg_get_at hm hlen)).symm
  · rw [if_neg hk, hdesc k]
    cases hfk : jsFindIndex (fun s => id s == k) orig with
    | none =>
      rw [Option.map_none']
      symm
      rw [jsFindIndex_eq_none]
      intro x hxm hpx
      have : x ∈ orig := (hperm.mem_iff).mp hxm
      exact jsFindIndex_eq_none.mp (by rw [← hfk]) x this hpx
    | some p =>
      obtain ⟨xp, hxp, hpk⟩ := jsFindIndex_of_eq_some hfk
      have hkid : id xp = k := beq_iff_eq.mp hpk
      have hpidx : p ≠ idx := by
        intro hc
        subst hc
        rw [hx] at hxp
        cases hxp
        exact hk (hkid ▸ hsid)
      rw [Option.map_some']
      by_cases hwin : idx - m ≤ p ∧ p < idx
      · rw [if_pos hwin]
        have hget : (zMovedNeg orig idx m x0).get? (p + 1) = some xp := by
          rw [zMovedNeg_get_mid (by omega) (by omega) hm hlen]
          have h8 : p + 1 - 1 = p := by omega
          rw [h8, hxp]
        symm
        rw [← hkid]
        exact jsFindIndex_of_nodup hFnd hget
      · rw [if_neg hwin]
        have hget : (zMovedNeg orig idx m x0).get? p = some xp := by
          by_cases hlo : p < idx - m
          · rw [zMovedNeg_get_lo hlo hm hlen, hxp]
          · rw [zMovedNeg_get_hi (by omega) hm hlen, hxp]
        symm
        rw [← hkid]
        exact jsFindIndex_of_nodup hFnd hget

/-! ### `changeShapeZ` preserves the invariant -/

theorem get?_lt_length {α : Type} {xs : List α} {i : Nat} {x : α}
    (h : xs.get? i = some x) : i < xs.length := by
  by_contra hc
  rw [List.get?_eq_none.mpr (by omega)] at h
  cases h

theorem storeInv_changeShapeZ_ok {α : Type} [HasId α] {st st2 : ArrayShapeStore α}
    (h : storeInv st) {sid : String} {d : Int}
    (hok : st.changeShapeZ sid d = .ok st2) : storeInv st2 := by
  by_cases hd : d = 0
  · subst hd
    rw [changeShapeZ_zero] at hok
    cases hok
    exact h
  cases hl : mapGet st.shapeLookup sid with
  | none =>
    rw [changeShapeZ_absent hd hl] at hok
    cases hok
  | some idx =>
    obtain ⟨x0, hx, hxid⟩ := inv_get_of_lookup h hl
    have hidxlen : idx < st.shapes.length := get?_lt_length hx
    by_cases hg1 : (idx : Int) + d < 0
    · rw [changeShapeZ_toBack hd hl hg1] at hok
      exact storeInv_sendShapeToBack_ok h hok
    by_cases hg2 : (st.shapes.length : Int) ≤ (idx : Int) + d
    · rw [changeShapeZ_toFront hd hl hg1 hg2] at hok
      exact storeInv_sendShapeToFront_ok h hok
    by_cases hdpos : 0 < d
    · have hdm : d = (d.toNat : Int) := by omega
      have hm0 : 0 < d.toNat := by omega
      have hbound : idx + d.toNat < st.shapes.length := by omega
      rw [hdm] at hok
      obtain ⟨lN, heq, hknN, hdescN⟩ := changeShapeZ_pos_eq h hl hx hm0 hbound
      rw [heq] at hok
      cases hok
      apply storeInv_mk
      · exact (((zMovedPos_perm hx hbound).map id).nodup_iff).mpr h.1
      · exact keysNodup_mapSet _ _ hknN
      · exact fun k => zMoved_spec_pos h.1 hx hxid hbound hdescN k
    · have hdm : d = -(((-d).toNat : Nat) : Int) := by omega
      have hm0 : 0 < (-d).toNat := by omega
      have hmi : (-d).toNat ≤ idx := by omega
      rw [hdm] at hok
      obtain ⟨lN, heq, hknN, hdescN⟩ := changeShapeZ_neg_eq h hl hx hm0 hmi hidxlen
      rw [heq] at hok
      cases hok
      apply storeInv_mk
      · exact (((zMovedNeg_perm hx hmi hidxlen).map id).nodup_iff).mpr h.1
      · exact keysNodup_mapSet _ _ hknN
      · exact fun k => zMoved_spec_neg h.1 hx hxid hmi hidxlen hdescN k

/-- Under the invariant a throwing `changeShapeZ` has not mutated the store. -/
theorem changeShapeZ_error_state {α : Type} [HasId α] {st st2 : ArrayShapeStore α}
    (h : storeInv st) {sid : String} {d : Int} {e : String}
    (herr : st.changeShapeZ sid d = .error (e, st2)) : st2 = st := by
  by_cases hd : d = 0
  · subst hd
    rw [changeShapeZ_zero] at herr
    cases herr
  cases hl : mapGet st.shapeLookup sid with
  | none =>
    rw [changeShapeZ_absent hd hl] at herr
    cases herr
    rfl
  | some idx =>
    obtain ⟨x0, hx, hxid⟩ := inv_get_of_lookup h hl
    have hidxlen : idx < st.shapes.length := get?_lt_length hx
    by_cases hg1 : (idx : Int) + d < 0
    · rw [changeShapeZ_toBack hd hl hg1] at herr
      exact (sendShape_error_state h).1 herr
    by_cases hg2 : (st.shapes.length : Int) ≤ (idx : Int) + d
    · rw [changeShapeZ_toFront hd hl hg1 hg2] at herr
      exact (sendShape_error_state h).2 herr
    by_cases hdpos : 0 < d
    · have hdm : d = (d.toNat : Int) := by omega
      have hm0 : 0 < d.toNat := by omega
      have hbound : idx + d.toNat < st.shapes.length := by omega
      rw [hdm] at herr
      obtain ⟨lN, heq, _, _⟩ := changeShapeZ_pos_eq h hl hx hm0 hbound
      rw [heq] at herr
      cases herr
    · have hdm : d = -(((-d).toNat : Nat) : Int) := by omega
      have hm0 : 0 < (-d).toNat := by omega
      have hmi : (-d).toNat ≤ idx := by omega
      rw [hdm] at herr
      obtain ⟨lN, heq, _, _⟩ := changeShapeZ_neg_eq h hl hx hm0 hmi hidxlen
      rw [heq] at herr
      cases herr

/-! ### Every operation preserves the invariant -/

theorem storeInv_runOp {α : Type} [HasId α] {st : ArrayShapeStore α}
    (h : storeInv st) (op : StoreOp α) : storeInv (runOp st op) := by
  cases op with
  | add s => exact storeInv_addShape h s
  | remove i => exact storeInv_removeShape h.1 i
  | get _ => exact h
  | toFront i =>
    cases hres : st.sendShapeToFront i with
    | ok st2 =>
      simp only [runOp, hres]
      exact storeInv_sendShapeToFront_ok h hres
    | error p =>
      cases p with
      | mk e st2 =>
        simp only [runOp, hres]
        rw [(sendShape_error_state h).2 hres]
        exact h
  | toBack i =>
    cases hres : st.sendShapeToBack i with
    | ok st2 =>
      simp only [runOp, hres]
      exact storeInv_sendShapeToBack_ok h hres
    | error p =>
      cases p with
      | mk e st2 =>
        simp only [runOp, hres]
        rw [(sendShape_error_state h).1 hres]
        exact h
  | changeZ i l =>
    cases hres : st.changeShapeZ i l with
    | ok st2 =>
      simp only [runOp, hres]
      exact storeInv_changeShapeZ_ok h hres
    | error p =>
      cases p with
      | mk e st2 =>
        simp only [runOp, hres]
        rw [changeShapeZ_error_state h hres]
        exact h

theorem storeInv_foldl {α : Type} [HasId α] (ops : List (StoreOp α))
    (st : ArrayShapeStore α) (h : storeInv st) :
    storeInv (ops.foldl runOp st) := by
  induction ops generalizing st with
  | nil => exact h
  | cons op rest ih => exact ih _ (storeInv_runOp h op)

theorem storeInv_runOps {α : Type} [HasId α] (ops : List (StoreOp α)) :
    storeInv (runOps ops) :=
  storeInv_foldl ops _ storeInv_empty

/-- A store of bare string ids, for concrete instantiations
(`T extends { id: any }` with the payload being just the id). -/
instance : HasId String := ⟨fun s => s⟩

/-- A concrete four-entry store in its canonical (reachable) form. -/
def sampleStore : ArrayShapeStore String :=
  { shapes := ["a", "b", "c", "d"],
    shapeLookup := [("a", 0), ("b", 1), ("c", 2), ("d", 3)] }

/-! ## Claim C3 -/

/-- C3: for every sequence of `ArrayShapeStore` operations (`addShape`,
`removeShape`, `getShape`, `sendShapeToFront`, `sendShapeToBack`,
`changeShapeZ`) starting from the empty store, after each operation the
lookup map's key set equals exactly the set of ids of shapes in the array,
and for every id the stored index is the actual array position of the shape
with that id.  (Quantifying over all sequences covers the state after each
operation of any fixed sequence, since every prefix is itself a sequence.) -/
theorem runOps_lookup_agrees {α : Type} [HasId α] (ops : List (StoreOp α)) :
    (∀ k, (mapGet (runOps ops).shapeLookup k).isSome
        ↔ ∃ s ∈ (runOps ops).shapes, id s = k) ∧
    (∀ k i, mapGet (runOps ops).shapeLookup k = some i →
        ∃ s, (runOps ops).shapes.get? i = some s ∧ id s = k) := by
  have hinv := storeInv_runOps ops
  have hspec := hinv.toSpec
  constructor
  · intro k
    rw [hspec k, jsFindIndex_isSome]
    constructor
    · rintro ⟨x, hx, hpx⟩
      exact ⟨x, hx, beq_iff_eq.mp hpx⟩
    · rintro ⟨s, hs, rfl⟩
      exact ⟨s, hs, beq_iff_eq.mpr rfl⟩
  · intro k i hki
    rw [hspec k] at hki
    obtain ⟨s, hs, hps⟩ := jsFindIndex_of_eq_some hki
    exact ⟨s, hs, beq_iff_eq.mp hps⟩

/-! ## Claim C4 -/

/-- C4: in a store where the shape with id `sid` sits at index `i`, an
in-range `changeShapeZ sid d` (with `0 ≤ i+d < n`) succeeds and (a) puts the
moved shape at position `i+d`, (b) shifts each of the `|d|` shapes that lay
between the old and the new position by exactly one slot toward `i`, and
(c) leaves every array slot and every lookup entry outside the closed index
range `[min i (i+d), max i (i+d)]` unchanged — so at most `|d|+1` array
slots (and as many lookup entries) are touched. -/
theorem changeShapeZ_in_range_frame {α : Type} [HasId α]
    (st : ArrayShapeStore α) (sid : String) (i : Nat) (s : α) (d : Int)
    (hinv : storeInv st)
    (hs : st.shapes.get? i = some s) (hid : id s = sid)
    (hlo : 0 ≤ (i : Int) + d) (hhi : (i : Int) + d < (st.shapes.length : Int)) :
    ∃ st2, st.changeShapeZ sid d = .ok st2 ∧
      st2.shapes.length = st.shapes.length ∧
      st2.shapes.get? ((i : Int) + d).toNat = some s ∧
      (∀ p : Nat, (i : Int) < p → (p : Int) ≤ (i : Int) + d →
          st2.shapes.get? (p - 1) = st.shapes.get? p) ∧
      (∀ p : Nat, (i : Int) + d ≤ p → (p : Int) < i →
          st2.shapes.get? (p + 1) = st.shapes.get? p) ∧
      (∀ p : Nat, ((p : Int) < min (i : Int) ((i : Int) + d)
            ∨ max (i : Int) ((i : Int) + d) < (p : Int)) →
          st2.shapes.get? p = st.shapes.get? p) ∧
      (∀ k p, mapGet st.shapeLookup k = some p →
          ((p : Int) < min (i : Int) ((i : Int) + d)
            ∨ max (i : Int) ((i : Int) + d) < (p : Int)) →
          mapGet st2.shapeLookup k = some p) := by
  have hspec := hinv.toSpec
  have hl : mapGet st.shapeLookup sid = some i := by
    rw [hspec sid, ← hid]
    exact jsFindIndex_of_nodup hinv.1 hs
  have hilen : i < st.shapes.length := get?_lt_length hs
  by_cases hd0 : d = 0
  · subst hd0
    refine ⟨st, changeShapeZ_zero st sid, rfl, ?_, ?_, ?_, ?_, ?_⟩
    · have : ((i : Int) + 0).toNat = i := by omega
      rw [this, hs]
    · intro p h1 h2
      omega
    · intro p h1 h2
      omega
    · intro p _
      rfl
    · intro k p hk _
      exact hk
  by_cases hdpos : 0 < d
  · have hdm : d = (d.toNat : Int) := by omega
    have hm0 : 0 < d.toNat := by omega
    have hbound : i + d.toNat < st.shapes.length := by omega
    obtain ⟨lN, heq, hknN, hdescN⟩ := changeShapeZ_pos_eq hinv hl hs hm0 hbound
    rw [← hdm] at heq
    refine ⟨_, heq, zMovedPos_length hbound, ?_, ?_, ?_, ?_, ?_⟩
    · have : ((i : Int) + d).toNat = i + d.toNat := by omega
      rw [this]
      exact zMovedPos_get_at hbound
    · intro p h1 h2
      have h3 : p - 1 + 1 = p := by omega
      rw [zMovedPos_get_mid (by omega) (by omega) hbound, h3]
    · intro p h1 h2
      omega
    · intro p hp
      rcases hp with hp | hp
      · exact zMovedPos_get_lo (by omega) hbound
      · exact zMovedPos_get_hi (by omega) hbound
    · intro k p hk hp
      have hkne : k ≠ sid := by
        intro hc
        subst hc
        rw [hl] at hk
        cases hk
        omega
      show mapGet (mapSet lN sid (i + d.toNat)) k = some p
      rw [mapGet_mapSet, if_neg hkne, hdescN k]
      have hfk : jsFindIndex (fun x => id x == k) st.shapes = some p := by
        rw [← hspec k]
        exact hk
      rw [hfk, Option.map_some', if_neg (by omega)]
  · have hdm : d = -(((-d).toNat : Nat) : Int) := by omega
    have hm0 : 0 < (-d).toNat := by omega
    have hmi : (-d).toNat ≤ i := by omega
    obtain ⟨lN, heq, hknN, hdescN⟩ := changeShapeZ_neg_eq hinv hl hs hm0 hmi hilen
    rw [← hdm] at heq
    refine ⟨_, heq, zMovedNeg_length hmi hilen, ?_, ?_, ?_, ?_, ?_⟩
    · have : ((i : Int) + d).toNat = i - (-d).toNat := by omega
      rw [this]
      exact zMovedNeg_get_at hmi hilen
    · intro p h1 h2
      omega
    · intro p h1 h2
      rw [zMovedNeg_get_mid (by omega) (by omega) hmi hilen]
      have h3 : p + 1 - 1 = p := by omega
      rw [h3]
    · intro p hp
      rcases hp with hp | hp
      · exact zMovedNeg_get_lo (by omega) hmi hilen
      · exact zMovedNeg_get_hi (by omega) hmi hilen
    · intro k p hk hp
      have hkne : k ≠ sid := by
        intro hc
        subst hc
        rw [hl] at hk
        cases hk
        omega
      show mapGet (mapSet lN sid (i - (-d).toNat)) k = some p
      rw [mapGet_mapSet, if_neg hkne, hdescN k]
      have hfk : jsFindIndex (fun x => id x == k) st.shapes = some p := by
        rw [← hspec k]
        exact hk
      rw [hfk, Option.map_some', if_neg (by omega)]

/-- Witness for C4: moving `"b"` (index 1) up by 2 in a concrete four-entry
store satisfies every hypothesis, and the theorem applies. -/
theorem changeShapeZ_in_range_frame_witness :
    (storeInv sampleStore ∧ sampleStore.shapes.get? 1 = some "b" ∧
      (0 : Int) ≤ (1 : Nat) + (2 : Int) ∧
      ((1 : Nat) : Int) + 2 < (sampleStore.shapes.length : Int)) ∧
    (∃ st2, sampleStore.changeShapeZ "b" 2 = .ok st2 ∧
      st2.shapes.length = sampleStore.shapes.length ∧
      st2.shapes.get? (((1 : Nat) : Int) + 2).toNat = some "b" ∧
      (∀ p : Nat, ((1 : Nat) : Int) < p → (p : Int) ≤ ((1 : Nat) : Int) + 2 →
          st2.shapes.get? (p - 1) = sampleStore.shapes.get? p) ∧
      (∀ p : Nat, ((1 : Nat) : Int) + 2 ≤ p → (p : Int) < (1 : Nat) →
          st2.shapes.get? (p + 1) = sampleStore.shapes.get? p) ∧
      (∀ p : Nat, ((p : Int) < min ((1 : Nat) : Int) (((1 : Nat) : Int) + 2)
            ∨ max ((1 : Nat) : Int) (((1 : Nat) : Int) + 2) < (p : Int)) →
          st2.shapes.get? p = sampleStore.shapes.get? p) ∧
      (∀ k p, mapGet sampleStore.shapeLookup k = some p →
          ((p : Int) < min ((1 : Nat) : Int) (((1 : Nat) : Int) + 2)
            ∨ max ((1 : Nat) : Int) (((1 : Nat) : Int) + 2) < (p : Int)) →
          mapGet st2.shapeLookup k = some p)) :=
  ⟨⟨by decide, by decide, by decide, by decide⟩,
    changeShapeZ_in_range_frame sampleStore "b" 1 "b" 2 (by decide) (by decide)
      (by decide) (by decide) (by decide)⟩

/-! ## Claim C8 -/

/-- C8 counterexample: `changeShapeZ` with delta `0` on an id that is not in
the store returns normally (`if (layers === 0) return this` runs before the
lookup), so it is a silent no-op rather than the loud failure the claim
demands for "every delta d". -/
theorem changeShapeZ_zero_delta_absent_no_throw :
    (ArrayShapeStore.empty (α := String)).changeShapeZ "a" 0
        = .ok ArrayShapeStore.empty ∧
    "a" ∉ (ArrayShapeStore.empty (α := String)).shapes.map id :=
  ⟨changeShapeZ_zero _ _, by decide⟩

/-- C8 (amended): on an id absent from the store, `removeShape` is a silent
no-op (array unchanged, lookup observably unchanged) and `getShape` reports
not-found, while `sendShapeToFront`, `sendShapeToBack`, and `changeShapeZ`
with any *nonzero* delta throw and leave the store unchanged.  (Amended from
the claim: a zero delta returns before the lookup and does not throw — see
the counterexample.) -/
theorem absent_id_ops_behavior {α : Type} [HasId α] (st : ArrayShapeStore α)
    (x : String) (hinv : storeInv st) (habs : x ∉ st.shapes.map id) :
    ((st.removeShape x).shapes = st.shapes ∧
      ∀ k, mapGet (st.removeShape x).shapeLookup k = mapGet st.shapeLookup k) ∧
    st.getShape x = none ∧
    st.sendShapeToFront x = .error ("Shape not found in lookup", st) ∧
    st.sendShapeToBack x = .error ("Shape not found in lookup", st) ∧
    (∀ d : Int, d ≠ 0 →
      st.changeShapeZ x d = .error ("Shape not found in lookup", st)) := by
  have hspec := hinv.toSpec
  have hnone : jsFindIndex (fun s => id s == x) st.shapes = none := by
    rw [jsFindIndex_eq_none]
    intro s hs hps
    exact habs (beq_iff_eq.mp hps ▸ List.mem_map_of_mem id hs)
  have hl : mapGet st.shapeLookup x = none := by
    rw [hspec x, hnone]
  have hfilter : st.shapes.filter (fun s => id s != x) = st.shapes := by
    rw [List.filter_eq_self]
    intro s hs
    simp only [bne_iff_ne, ne_eq]
    intro hc
    exact habs (hc ▸ List.mem_map_of_mem id hs)
  refine ⟨⟨?_, ?_⟩, ?_, sendShapeToFront_absent hl, sendShapeToBack_absent hl, ?_⟩
  · show st.shapes.filter (fun s => id s != x) = st.shapes
    exact hfilter
  · intro k
    show mapGet (buildLookup id (st.shapes.filter (fun s => id s != x))) k
        = mapGet st.shapeLookup k
    rw [hfilter, mapGet_buildLookup id st.shapes k hinv.1, hspec k]
  · unfold ArrayShapeStore.getShape
    rw [hl]
  · intro d hd
    exact changeShapeZ_absent hd hl

/-- Witness for C8 (amended): a concrete singleton store and the absent id
`"b"`. -/
theorem absent_id_ops_behavior_witness :
    (storeInv (⟨["a"], [("a", 0)]⟩ : ArrayShapeStore String) ∧
      "b" ∉ (⟨["a"], [("a", 0)]⟩ : ArrayShapeStore String).shapes.map id) ∧
    (((⟨["a"], [("a", 0)]⟩ : ArrayShapeStore String).removeShape "b").shapes
        = ["a"] ∧
      ∀ k, mapGet ((⟨["a"], [("a", 0)]⟩ : ArrayShapeStore String).removeShape
          "b").shapeLookup k
        = mapGet [("a", 0)] k) ∧
    (⟨["a"], [("a", 0)]⟩ : ArrayShapeStore String).getShape "b" = none ∧
    (⟨["a"], [("a", 0)]⟩ : ArrayShapeStore String).sendShapeToFront "b"
      = .error ("Shape not found in lookup", ⟨["a"], [("a", 0)]⟩) ∧
    (⟨["a"], [("a", 0)]⟩ : ArrayShapeStore String).sendShapeToBack "b"
      = .error ("Shape not found in lookup", ⟨["a"], [("a", 0)]⟩) ∧
    (∀ d : Int, d ≠ 0 →
      (⟨["a"], [("a", 0)]⟩ : ArrayShapeStore String).changeShapeZ "b" d
        = .error ("Shape not found in lookup", ⟨["a"], [("a", 0)]⟩)) :=
  ⟨⟨by decide, by decide⟩,
    absent_id_ops_behavior (⟨["a"], [("a", 0)]⟩ : ArrayShapeStore String) "b"
      (by decide) (by decide)⟩

/-! ## Claim C9 -/

/-- C9: when the shape with id `x` sits at index `i`, `changeShapeZ x d`
with `i+d < 0` returns exactly what `sendShapeToBack x` returns, and with
`i+d ≥ n` exactly what `sendShapeToFront x` returns (the source literally
delegates with a tail call in both cases). -/
theorem changeShapeZ_clamp_equiv {α : Type} [HasId α] (st : ArrayShapeStore α)
    (x : String) (i : Nat) (s : α) (d : Int)
    (hl : mapGet st.shapeLookup x = some i)
    (hs : st.shapes.get? i = some s) :
    ((i : Int) + d < 0 → st.changeShapeZ x d = st.sendShapeToBack x) ∧
    ((st.shapes.length : Int) ≤ (i : Int) + d →
      st.changeShapeZ x d = st.sendShapeToFront x) := by
  have hilen : i < st.shapes.length := get?_lt_length hs
  constructor
  · intro hg
    have hd : d ≠ 0 := by omega
    exact changeShapeZ_toBack hd hl hg
  · intro hg
    have hd : d ≠ 0 := by omega
    exact changeShapeZ_toFront hd hl (by omega) hg

/-- Witness for C9: `"a"` at index 0 of a two-entry store, with delta `-5`
(the send-to-back clamp fires; the send-to-front implication is vacuous). -/
theorem changeShapeZ_clamp_equiv_witness :
    (mapGet (⟨["a", "b"], [("a", 0), ("b", 1)]⟩ :
        ArrayShapeStore String).shapeLookup "a" = some 0 ∧
      (⟨["a", "b"], [("a", 0), ("b", 1)]⟩ :
        ArrayShapeStore String).shapes.get? 0 = some "a") ∧
    ((((0 : Nat) : Int) + (-5) < 0 →
      (⟨["a", "b"], [("a", 0), ("b", 1)]⟩ : ArrayShapeStore String).changeShapeZ
          "a" (-5)
        = (⟨["a", "b"], [("a", 0), ("b", 1)]⟩ :
            ArrayShapeStore String).sendShapeToBack "a") ∧
    (((⟨["a", "b"], [("a", 0), ("b", 1)]⟩ :
          ArrayShapeStore String).shapes.length : Int) ≤ ((0 : Nat) : Int) + (-5) →
      (⟨["a", "b"], [("a", 0), ("b", 1)]⟩ : ArrayShapeStore String).changeShapeZ
          "a" (-5)
        = (⟨["a", "b"], [("a", 0), ("b", 1)]⟩ :
            ArrayShapeStore String).sendShapeToFront "a")) :=
  ⟨⟨by decide, by decide⟩,
    changeShapeZ_clamp_equiv (⟨["a", "b"], [("a", 0), ("b", 1)]⟩ :
        ArrayShapeStore String) "a" 0 "a" (-5) (by decide) (by decide)⟩

/-! ## Claim C1 -/

/-- C1 counterexample: a `ShapeZChanged` event with the finite delta `2`
does not survive the round trip — the serializer keeps only the sign
(`value: event.z > 0 ? 1 : -1`), so the event comes back with `z = 1`. -/
theorem serialize_roundtrip_finite_delta_counterexample :
    deserializeEvent (serializeEvent
        (.shapeZChanged ⟨"o", 0, false⟩ "s" (.num 2)))
      ≠ .event (.shapeZChanged ⟨"o", 0, false⟩ "s" (.num 2)) ∧
    deserializeEvent (serializeEvent
        (.shapeZChanged ⟨"o", 0, false⟩ "s" (.num 2)))
      = .event (.shapeZChanged ⟨"o", 0, false⟩ "s" (.num 1)) := by
  exact ⟨by decide, by decide⟩

/-- C1 (amended): `deserializeEvent (serializeEvent e) = e` holds for every
event of the five kinds without a `z` field, with arbitrary payloads, and
for `ShapeZChanged` exactly when `z` is a sentinel (`Infinity` in either
direction) or one of the finite deltas `1` and `-1`; other finite deltas
collapse to their sign (see the counterexample). -/
theorem serialize_roundtrip_amended :
    (∀ b s, deserializeEvent (serializeEvent (.shapeAdded b s))
        = .event (.shapeAdded b s)) ∧
    (∀ b i, deserializeEvent (serializeEvent (.shapeRemoved b i))
        = .event (.shapeRemoved b i)) ∧
    (∀ b i o, deserializeEvent (serializeEvent (.shapeSelected b i o))
        = .event (.shapeSelected b i o)) ∧
    (∀ b i, deserializeEvent (serializeEvent (.shapeDeselected b i))
        = .event (.shapeDeselected b i)) ∧
    (∀ b p, deserializeEvent (serializeEvent (.shapeUpdated b p))
        = .event (.shapeUpdated b p)) ∧
    (∀ b i, deserializeEvent (serializeEvent (.shapeZChanged b i .posInf))
        = .event (.shapeZChanged b i .posInf)) ∧
    (∀ b i, deserializeEvent (serializeEvent (.shapeZChanged b i .negInf))
        = .event (.shapeZChanged b i .negInf)) ∧
    (∀ b i, deserializeEvent (serializeEvent (.shapeZChanged b i (.num 1)))
        = .event (.shapeZChanged b i (.num 1))) ∧
    (∀ b i, deserializeEvent (serializeEvent (.shapeZChanged b i (.num (-1))))
        = .event (.shapeZChanged b i (.num (-1)))) :=
  ⟨fun _ _ => rfl, fun _ _ => rfl, fun _ _ _ => rfl, fun _ _ => rfl,
    fun _ _ => rfl, fun _ _ => rfl, fun _ _ => rfl, fun _ _ => rfl,
    fun _ _ => rfl⟩

/-! ## Claim C5 -/

/-- C5 counterexample: an input whose parsed `type` is the unknown
discriminant `"ShapeExploded"` is not rejected; `deserializeEvent` returns
the parsed object unchanged (the `as ShapeEvent` assertion is erased at
runtime), silently coercing it. -/
theorem deserialize_unknown_type_coerced :
    deserializeEvent (.unknownType "ShapeExploded" ⟨"o", 0, false⟩)
      = .unknown "ShapeExploded" ⟨"o", 0, false⟩ := rfl

/-- C5 (amended): `deserializeEvent` performs no validation of the `type`
discriminant.  A parsed object with any unknown `type` is returned as-is —
no decode error is signaled for any input (the only `type`-dependent
behavior is the `ShapeZChanged` sentinel decoding). -/
theorem deserialize_no_discriminant_validation :
    ∀ t b, deserializeEvent (.unknownType t b) = .unknown t b :=
  fun _ _ => rfl

/-! ## Claim C6 -/

/-- A rectangle with id `"x"`. -/
def shapeX : Shape :=
  { id := "x", type := "Rectangle", temporary := false, borderColor := "black",
    fillColor := "transparent", fromP := some ⟨0, 0⟩, toP := some ⟨10, 10⟩,
    center := none, radius := none, p1 := none, p2 := none, p3 := none }

/-- A rectangle with id `"y"`. -/
def shapeY : Shape :=
  { id := "y", type := "Rectangle", temporary := false, borderColor := "black",
    fillColor := "transparent", fromP := some ⟨5, 5⟩, toP := some ⟨20, 20⟩,
    center := none, radius := none, p1 := none, p2 := none, p3 := none }

/-- C6: the log `[Added(x), Added(y), Removed(x), Selected(y)]` compacts to
`[Added(y), Selected(y)]` — the backward scan registers `x` as dead at the
`ShapeRemoved`, drops that event and the earlier `Added(x)`, keeps both
events for `y`, and restores chronological order. -/
theorem compactEventLog_scenario :
    compactEventLog
      [.shapeAdded ⟨"o1", 1, false⟩ shapeX,
       .shapeAdded ⟨"o1", 2, false⟩ shapeY,
       .shapeRemoved ⟨"o1", 3, false⟩ "x",
       .shapeSelected ⟨"o1", 4, false⟩ "y" ⟨"#43ff6480"⟩]
      = [.shapeAdded ⟨"o1", 2, false⟩ shapeY,
         .shapeSelected ⟨"o1", 4, false⟩ "y" ⟨"#43ff6480"⟩] := by
  decide

/-! ## Claim C7 -/

/-- Is the event a `ShapeRemoved`? -/
def isShapeRemoved : WireEvent → Bool
  | .shapeRemoved _ _ => true
  | _ => false

/-- Each compaction step either keeps the output unchanged or appends the
scanned event, and it only ever appends a non-`ShapeRemoved` event. -/
theorem compactStep_cases (st : List String × List WireEvent) (e : WireEvent) :
    (compactStep st e).2 = st.2 ∨
    ((compactStep st e).2 = st.2 ++ [e] ∧ isShapeRemoved e = false) := by
  cases e with
  | shapeRemoved b sid => left; rfl
  | shapeZChanged b sid z =>
    by_cases h : sid ∈ st.1
    · left; simp [compactStep, h]
    · right; exact ⟨by simp [compactStep, h], rfl⟩
  | shapeDeselected b sid =>
    by_cases h : sid ∈ st.1
    · left; simp [compactStep, h]
    · right; exact ⟨by simp [compactStep, h], rfl⟩
  | shapeSelected b sid o =>
    by_cases h : sid ∈ st.1
    · left; simp [compactStep, h]
    · right; exact ⟨by simp [compactStep, h], rfl⟩
  | shapeAdded b sh =>
    by_cases h : sh.id ∈ st.1
    · left; simp [compactStep, h]
    · right; exact ⟨by simp [compactStep, h], rfl⟩
  | shapeUpdated b sh =>
    by_cases h : sh.id ∈ st.1
    · left; simp [compactStep, h]
    · right; exact ⟨by simp [compactStep, h], rfl⟩
  | unknownType t b => right; exact ⟨rfl, rfl⟩

/-- Everything the compaction scan outputs is a non-`ShapeRemoved` event. -/
theorem compact_foldl_no_removed (xs : List WireEvent) :
    ∀ (st : List String × List WireEvent),
    (∀ e ∈ st.2, isShapeRemoved e = false) →
    ∀ e ∈ (xs.foldl compactStep st).2, isShapeRemoved e = false := by
  induction xs with
  | nil => intro st h e he; exact h e he
  | cons x rest ih =>
    intro st h e he
    rw [List.foldl_cons] at he
    refine ih (compactStep st x) ?_ e he
    intro e2 he2
    rcases compactStep_cases st x with hc | ⟨hc, hx⟩
    · rw [hc] at he2
      exact h e2 he2
    · rw [hc] at he2
      rcases List.mem_append.mp he2 with h3 | h3
      · exact h e2 h3
      · rcases List.mem_singleton.mp h3 with rfl
        exact hx

/-- On a log with no `ShapeRemoved` events (and hence an empty dead-set),
the scan keeps every event. -/
theorem compact_foldl_keep_all (xs : List WireEvent)
    (hx : ∀ e ∈ xs, isShapeRemoved e = false) :
    ∀ acc : List WireEvent,
    xs.foldl compactStep ([], acc) = ([], acc ++ xs) := by
  induction xs with
  | nil => intro acc; simp
  | cons x rest ih =>
    intro acc
    have hxr : isShapeRemoved x = false := hx x (List.mem_cons_self x rest)
    have hrest : ∀ e ∈ rest, isShapeRemoved e = false := by
      intro e he
      exact hx e (List.mem_cons_of_mem x he)
    have hstep : compactStep ([], acc) x = ([], acc ++ [x]) := by
      cases x with
      | shapeRemoved b sid => simp [isShapeRemoved] at hxr
      | shapeZChanged b sid z => simp [compactStep]
      | shapeDeselected b sid => simp [compactStep]
      | shapeSelected b sid o => simp [compactStep]
      | shapeAdded b sh => simp [compactStep]
      | shapeUpdated b sh => simp [compactStep]
      | unknownType t b => rfl
    rw [List.foldl_cons, hstep, ih hrest (acc ++ [x]), List.append_assoc]
    rfl

/-- C7: compaction is idempotent — running the pass on its own output
changes nothing, because the output never contains a `ShapeRemoved` event,
so the second pass's dead-set stays empty and every event is kept. -/
theorem compactEventLog_idempotent (log : List WireEvent) :
    compactEventLog (compactEventLog log) = compactEventLog log := by
  have hnr : ∀ e ∈ compactEventLog log, isShapeRemoved e = false := by
    intro e he
    unfold compactEventLog at he
    rw [List.mem_reverse] at he
    exact compact_foldl_no_removed log.reverse ([], []) (by simp) e he
  have hnr2 : ∀ e ∈ (compactEventLog log).reverse, isShapeRemoved e = false := by
    intro e he
    exact hnr e (List.mem_reverse.mp he)
  show ((((compactEventLog log).reverse).foldl compactStep ([], [])).2).reverse
      = compactEventLog log
  rw [compact_foldl_keep_all (compactEventLog log).reverse hnr2 []]
  simp

/-! ## Claim C2 -/

/-- A concrete `DrawingCanvas` store holding the two rectangles. -/
def canvasStore0 : ArrayShapeStore CanvasShape :=
  { shapes := [⟨shapeX, none⟩, ⟨shapeY, none⟩],
    shapeLookup := [("x", 0), ("y", 1)] }

/-- A `ShapeZChanged` produced by this session and echoed back by the relay. -/
def selfZEvent : ShapeEvent :=
  .shapeZChanged ⟨"session-self", 5, false⟩ "x" (.num 1)

/-- C2 counterexample: a self-originated `ShapeZChanged` event, round-tripped
through `serializeEvent`/`deserializeEvent` and dispatched along the inbound
path, is applied again — the `DrawingCanvas` projection moves the shape a
second time.  No listener of that kind compares `event.origin` to the local
origin (only the `SelectionTool`'s `ShapeSelected`/`ShapeDeselected`
listeners do). -/
theorem inbound_self_echo_projected_counterexample :
    ShapeEvent.origin selfZEvent = "session-self" ∧
    inboundDispatchCanvas canvasStore0 (serializeEvent selfZEvent)
      ≠ canvasStore0 := by
  exact ⟨rfl, by decide⟩

/-- C2 (amended): origin-based self-echo suppression exists only in the
`SelectionTool`'s `ShapeSelected` and `ShapeDeselected` listeners; for an
event of one of those two kinds whose origin equals the tool's
`currentEventOrigin`, the listener returns before touching any state.  (All
other kinds — and all `DrawingCanvas` listeners — project inbound events
unconditionally; see the counterexample.) -/
theorem selectionTool_self_origin_skip (localOrigin : String)
    (ts : SelectionToolState) (e : ShapeEvent)
    (horigin : e.origin = localOrigin)
    (hkind : (∃ b sid o, e = .shapeSelected b sid o)
      ∨ (∃ b sid, e = .shapeDeselected b sid)) :
    selectionToolApplyEvent localOrigin ts e = ts := by
  rcases hkind with ⟨b, sid, o, rfl⟩ | ⟨b, sid, rfl⟩
  · simp only [ShapeEvent.origin] at horigin
    simp only [selectionToolApplyEvent, beq_iff_eq.mpr horigin, if_true]
  · simp only [ShapeEvent.origin] at horigin
    simp only [selectionToolApplyEvent, beq_iff_eq.mpr horigin, if_true]

/-- Witness for C2 (amended): a concrete self-originated `ShapeSelected`
event leaves a concrete `SelectionTool` state untouched. -/
theorem selectionTool_self_origin_skip_witness :
    (ShapeEvent.origin (.shapeSelected ⟨"me", 7, false⟩ "x" ⟨"#43ff6480"⟩)
        = "me") ∧
    selectionToolApplyEvent "me"
        ⟨canvasStore0, [], none⟩
        (.shapeSelected ⟨"me", 7, false⟩ "x" ⟨"#43ff6480"⟩)
      = ⟨canvasStore0, [], none⟩ :=
  ⟨rfl,
    selectionTool_self_origin_skip "me" ⟨canvasStore0, [], none⟩
      (.shapeSelected ⟨"me", 7, false⟩ "x" ⟨"#43ff6480"⟩) rfl
      (Or.inl ⟨_, _, _, rfl⟩)⟩

/-! ## Claim C10 -/

theorem jsSpliceOne_eq {β : Type} (xs : List β) (start : Int) :
    jsSpliceOne xs start
      = xs.take (if start < 0 then (max ((xs.length : Int) + start) 0).toNat
                 else (min start (xs.length : Int)).toNat)
        ++ xs.drop ((if start < 0 then (max ((xs.length : Int) + start) 0).toNat
                 else (min start (xs.length : Int)).toNat) + 1) := rfl

theorem jsIndexOf_found {xs : List Nat} {l : Nat} {i : Nat}
    (h : jsFindIndex (fun x => x == l) xs = some i) :
    jsIndexOf xs l = (i : Int) := by
  unfold jsIndexOf
  rw [h]

theorem jsIndexOf_missing {xs : List Nat} {l : Nat}
    (h : jsFindIndex (fun x => x == l) xs = none) :
    jsIndexOf xs l = -1 := by
  unfold jsIndexOf
  rw [h]

theorem jsSpliceOne_cons_succ {β : Type} (a : β) (xs : List β) (i : Nat) :
    jsSpliceOne (a :: xs) ((i : Int) + 1) = a :: jsSpliceOne xs (i : Int) := by
  rw [jsSpliceOne_eq, jsSpliceOne_eq, if_neg (by omega), if_neg (by omega)]
  have h1 : (min ((i : Int) + 1) (((a :: xs).length : Nat) : Int)).toNat
      = (min (i : Int) ((xs.length : Nat) : Int)).toNat + 1 := by
    simp only [List.length_cons]
    omega
  rw [h1, List.take_succ_cons, List.drop_succ_cons]
  rfl

theorem removeListener_mem {xs : List Nat} {l : Nat} (h : l ∈ xs) :
    removeListener xs l = xs.erase l := by
  induction xs with
  | nil => simp at h
  | cons a as ih =>
    by_cases ha : a = l
    · subst ha
      unfold removeListener
      rw [jsIndexOf_found (by simp [jsFindIndex] :
          jsFindIndex (fun x => x == a) (a :: as) = some 0)]
      rw [jsSpliceOne_eq, if_neg (by omega)]
      have hs : (min ((0 : Nat) : Int) (((a :: as).length : Nat) : Int)).toNat
          = 0 := by
        simp only [List.length_cons]
        omega
      rw [hs, List.take_zero, List.nil_append, Nat.zero_add,
        List.drop_one, List.tail_cons, List.erase_cons_head]
    · have hmem : l ∈ as := by
        rcases List.mem_cons.mp h with h1 | h1
        · exact absurd h1.symm ha
        · exact h1
      have hne : (a == l) = false := beq_eq_false_iff_ne.mpr ha
      cases hfi : jsFindIndex (fun x => x == l) as with
      | none =>
        have := (jsFindIndex_isSome (fun x => x == l) as).mpr
          ⟨l, hmem, beq_iff_eq.mpr rfl⟩
        rw [hfi] at this
        simp at this
      | some i =>
        have hcons : jsFindIndex (fun x => x == l) (a :: as) = some (i + 1) := by
          simp [jsFindIndex, hne, hfi]
        unfold removeListener
        rw [jsIndexOf_found hcons]
        have hpush : ((i + 1 : Nat) : Int) = ((i : Nat) : Int) + 1 := by omega
        rw [hpush, jsSpliceOne_cons_succ]
        have ih2 : jsSpliceOne as ((i : Nat) : Int) = as.erase l := by
          have ih3 := ih hmem
          unfold removeListener at ih3
          rw [jsIndexOf_found hfi] at ih3
          exact ih3
        rw [ih2, List.erase_cons_tail (by simp [hne])]

theorem removeListener_not_mem {xs : List Nat} {l : Nat} (h : l ∉ xs) :
    removeListener xs l = xs.dropLast := by
  have hfi : jsFindIndex (fun x => x == l) xs = none := by
    rw [jsFindIndex_eq_none]
    intro x hx hpx
    exact h ((beq_iff_eq.mp hpx) ▸ hx)
  unfold removeListener
  rw [jsIndexOf_missing hfi, jsSpliceOne_eq, if_pos (by omega : (-1 : Int) < 0)]
  have hs : (max (((xs.length : Nat) : Int) + -1) 0).toNat = xs.length - 1 := by
    omega
  rw [hs]
  cases xs with
  | nil => rfl
  | cons a as =>
    have h2 : (a :: as).length - 1 + 1 = (a :: as).length := by
      simp only [List.length_cons]
      omega
    rw [h2, List.drop_length, List.append_nil, List.dropLast_eq_take]

/-- C10: the unsubscribe closure returned by `addEventListener` is not
idempotent.  Calling it while its listener is registered removes the first
registration of that listener; calling it again after the listener is gone
runs `splice(-1, 1)`, which deletes the *last* listener of the kind.  In
particular, after registering listeners 1 and 2, invoking listener 1's
unsubscriber twice empties the array, so the unrelated listener 2 stops
receiving events. -/
theorem unsubscribe_not_idempotent :
    (∀ (xs : List Nat) (l : Nat), l ∈ xs → removeListener xs l = xs.erase l) ∧
    (∀ (xs : List Nat) (l : Nat), l ∉ xs →
        removeListener xs l = xs.dropLast) ∧
    (addEventListener (addEventListener [] 1) 2 = [1, 2] ∧
      removeListener [1, 2] 1 = [2] ∧
      removeListener [2] 1 = [] ∧
      busDelivers [2] 2 ∧ ¬ busDelivers ([] : List Nat) 2) :=
  ⟨fun _ _ h => removeListener_mem h,
    fun _ _ h => removeListener_not_mem h,
    by decide, by decide, by decide, by decide, by decide⟩

/-- Witness for C10: the general clauses applied at concrete listener
arrays. -/
theorem unsubscribe_not_idempotent_witness :
    ((1 ∈ ([1, 2] : List Nat)) ∧ removeListener [1, 2] 1 = ([1, 2] : List Nat).erase 1) ∧
    ((1 ∉ ([2] : List Nat)) ∧ removeListener [2] 1 = ([2] : List Nat).dropLast) :=
  ⟨⟨by decide, unsubscribe_not_idempotent.1 [1, 2] 1 (by decide)⟩,
    ⟨by decide, (unsubscribe_not_idempotent.2).1 [2] 1 (by decide)⟩⟩

end Canvas
